import Mathlib

/-!
Verification of the bridgy browser-extension backend (src/browser.py, src/util.py)
against its natural-language specification.

The development shallowly embeds the Python source:
* Python dicts/lists/JSON values become the inductive type `Json` (dicts are
  insertion-ordered association lists with unique keys, as in Python 3.7+).
* Datastore entities (`Activity`, `Domain`, `Source`/Account, `CachedPage`) become
  records in keyed association-list stores.  `models.py` is not part of the given
  source tree, so those entity shapes are modelled from the spec's "Persisted
  layout" section (each such definition says so in its doc comment).
* `abort(status, msg)` and raised exceptions become `Except`/`Option` results,
  carrying the HTTP status and the structured message payload.
* datetimes become natural numbers; `now_fn()` becomes an explicit `now` argument.
* External collaborators that the source calls but that live outside this
  repository (granary, oauth-dropins webutil, the Python standard library) are
  either passed in as function parameters of the model or modelled in a clearly
  documented definition.
-/

set_option linter.unusedVariables false

namespace Bridgy

/-! ## JSON values

A model of the Python values that flow through the handlers: `None`, booleans,
integers, strings, lists and (insertion-ordered) string-keyed dicts. -/

inductive Json : Type where
  | null
  | bool (b : Bool)
  | num (n : Int)
  | str (s : String)
  | arr (xs : List Json)
  | obj (kvs : List (String × Json))

mutual

def Json.beq : Json → Json → Bool
  | .null, .null => true
  | .bool a, .bool b => a == b
  | .num a, .num b => a == b
  | .str a, .str b => a == b
  | .arr xs, .arr ys => Json.beqList xs ys
  | .obj ps, .obj qs => Json.beqKVs ps qs
  | _, _ => false

def Json.beqList : List Json → List Json → Bool
  | [], [] => true
  | x :: xs, y :: ys => Json.beq x y && Json.beqList xs ys
  | _, _ => false

def Json.beqKVs : List (String × Json) → List (String × Json) → Bool
  | [], [] => true
  | (k, v) :: ps, (l, w) :: qs => k == l && Json.beq v w && Json.beqKVs ps qs
  | _, _ => false

end

/-- Strong induction over `Json`, with member access for the nested lists. -/
theorem json_ind (P : Json → Prop)
    (hnull : P .null) (hbool : ∀ b, P (.bool b)) (hnum : ∀ n, P (.num n))
    (hstr : ∀ s, P (.str s))
    (harr : ∀ xs, (∀ x ∈ xs, P x) → P (.arr xs))
    (hobj : ∀ kvs, (∀ p ∈ kvs, P p.2) → P (.obj kvs)) : ∀ j, P j
  | .null => hnull
  | .bool b => hbool b
  | .num n => hnum n
  | .str s => hstr s
  | .arr xs => harr xs (fun x hx => json_ind P hnull hbool hnum hstr harr hobj x)
  | .obj kvs => hobj kvs (fun p hp => json_ind P hnull hbool hnum hstr harr hobj p.2)
termination_by j => sizeOf j
decreasing_by
  · simp only [Json.arr.sizeOf_spec]
    have := List.sizeOf_lt_of_mem hx
    omega
  · simp only [Json.obj.sizeOf_spec]
    have h1 := List.sizeOf_lt_of_mem hp
    have h2 : sizeOf p.2 < sizeOf p := by
      obtain ⟨a, b⟩ := p
      simp only [Prod.mk.sizeOf_spec]
      omega
    omega

theorem json_beq_iff : ∀ a b : Json, Json.beq a b = true ↔ a = b := by
  intro a
  induction a using json_ind with
  | hnull => intro b; cases b <;> simp [Json.beq]
  | hbool x => intro b; cases b <;> simp [Json.beq]
  | hnum x => intro b; cases b <;> simp [Json.beq]
  | hstr x => intro b; cases b <;> simp [Json.beq]
  | harr xs ih =>
    intro b; cases b <;> simp [Json.beq]
    rename_i ys
    induction xs generalizing ys with
    | nil => cases ys <;> simp [Json.beqList]
    | cons x xs ihx =>
      cases ys with
      | nil => simp [Json.beqList]
      | cons y ys =>
        simp only [Json.beqList, Bool.and_eq_true, List.cons.injEq]
        rw [ih x (by simp), ihx (fun z hz => ih z (by simp [hz])) ys]
  | hobj kvs ih =>
    intro b; cases b <;> simp [Json.beq]
    rename_i qs
    induction kvs generalizing qs with
    | nil => cases qs <;> simp [Json.beqKVs]
    | cons p ps ihp =>
      cases qs with
      | nil => simp [Json.beqKVs]
      | cons q qs =>
        obtain ⟨k, v⟩ := p
        obtain ⟨l, w⟩ := q
        simp only [Json.beqKVs, Bool.and_eq_true, List.cons.injEq, Prod.mk.injEq, beq_iff_eq]
        rw [ih (k, v) (by simp) w, ihp (fun z hz => ih z (List.mem_cons_of_mem _ hz)) qs]

instance : DecidableEq Json := fun a b => decidable_of_iff _ (json_beq_iff a b)

/-! ## Python dict operations

A Python dict is an insertion-ordered association list with unique keys.
`dictGet` is `d.get(k)`, `dictInsert` is `d[k] = v` (overwrites in place,
appends if new). -/

def dictGet (d : List (String × Json)) (k : String) : Option Json :=
  (d.find? (fun p => p.1 == k)).map (·.2)

def dictInsert (d : List (String × Json)) (k : String) (v : Json) : List (String × Json) :=
  if d.any (fun p => p.1 == k) then
    d.map (fun p => if p.1 == k then (k, v) else p)
  else
    d ++ [(k, v)]

/-- `{p.1: p.2 for p in ps}`: builds a dict from a list of key/value pairs,
later pairs overwriting earlier ones of the same key.  Also models
`d.update(m)` via `dictOfPairs (d ++ pairs-of-m)` when `d` itself was built
this way. -/
def dictOfPairs (ps : List (String × Json)) : List (String × Json) :=
  ps.foldl (fun d p => dictInsert d p.1 p.2) []

/-! ## Keyed datastore

The App Engine datastore (ndb) keyed by string id: `get_by_id`, `put`
(create-or-overwrite) and `key.delete()`. -/

def storeGet {α : Type} (s : List (String × α)) (k : String) : Option α :=
  (s.find? (fun p => p.1 == k)).map (·.2)

def storePut {α : Type} (s : List (String × α)) (k : String) (v : α) : List (String × α) :=
  s.filter (fun p => p.1 != k) ++ [(k, v)]

def storeDelete {α : Type} (s : List (String × α)) (k : String) : List (String × α) :=
  s.filter (fun p => p.1 != k)

theorem storeGet_put_self {α : Type} (s : List (String × α)) (k : String) (v : α) :
    storeGet (storePut s k v) k = some v := by
  unfold storeGet storePut
  induction s with
  | nil => simp
  | cons p ps ih =>
    by_cases h : p.1 = k
    · rw [List.filter_cons_of_neg (by simp [h])]
      exact ih
    · rw [List.filter_cons_of_pos (by simp [h]), List.cons_append,
        List.find?_cons_of_neg _ (by simp [h])]
      exact ih

theorem storeGet_delete_self {α : Type} (s : List (String × α)) (k : String) :
    storeGet (storeDelete s k) k = none := by
  unfold storeGet storeDelete
  induction s with
  | nil => simp
  | cons p ps ih =>
    by_cases h : p.1 = k
    · rw [List.filter_cons_of_neg (by simp [h])]
      exact ih
    · rw [List.filter_cons_of_pos (by simp [h]),
        List.find?_cons_of_neg _ (by simp [h])]
      exact ih

/-! ## Page cache (src/util.py, class CachedPage, lines 517-555)

`CachedPage` entities: key id is the path, value holds the html and an optional
absolute expiry.  Time is modelled as a natural number and `now_fn()` is an
explicit argument. -/

structure CachedPageEnt where
  html : String
  expires : Option Nat
deriving DecidableEq, Repr

abbrev CacheStore := List (String × CachedPageEnt)

/-- `CachedPage.load` (src/util.py lines 531-541): returns the cached entity,
deleting it and returning `none` if its expiry has passed (`now_fn() > expires`).
Returns the (possibly updated) store alongside the result. -/
def CachedPage_load (now : Nat) (s : CacheStore) (path : String) :
    Option CachedPageEnt × CacheStore :=
  match storeGet s path with
  | none => (none, s)
  | some cached =>
    match cached.expires with
    | some e => if now > e then (none, storeDelete s path) else (some cached, s)
    | none => (some cached, s)

/-- `CachedPage.store` (src/util.py lines 543-550): stores html under the path;
a `some ttl` expiry is converted to the absolute time `now + ttl`. -/
def CachedPage_store (now : Nat) (s : CacheStore) (path html : String)
    (expires : Option Nat) : CacheStore :=
  storePut s path { html := html, expires := expires.map (fun ttl => now + ttl) }

/-- `CachedPage.invalidate` (src/util.py lines 552-555): unconditional delete. -/
def CachedPage_invalidate (s : CacheStore) (path : String) : CacheStore :=
  storeDelete s path

/-- C8: For every path, if a cached page was stored with a ttl and `load(path)` is
called at a time after the resulting absolute expiry `store-time + ttl` has
elapsed, `load` returns absent, and as a side effect the expired entry is deleted
from the store (lazy expiry); a stale entry is never returned past its expiry. -/
theorem cachedPage_expired_load_absent_and_deleted
    (s : CacheStore) (path html : String) (ttl tStore tLoad : Nat)
    (hlate : tLoad > tStore + ttl) :
    (CachedPage_load tLoad (CachedPage_store tStore s path html (some ttl)) path).1 = none ∧
    storeGet (CachedPage_load tLoad (CachedPage_store tStore s path html (some ttl)) path).2 path
      = (none : Option CachedPageEnt) := by
  have hget : storeGet (CachedPage_store tStore s path html (some ttl)) path
      = some { html := html, expires := some (tStore + ttl) } := by
    unfold CachedPage_store
    rw [storeGet_put_self]
    rfl
  unfold CachedPage_load
  rw [hget]
  simp only [gt_iff_lt]
  rw [if_pos hlate]
  exact ⟨rfl, storeGet_delete_self _ _⟩

/-- Witness for C8 at the spec's own example (`ttl=0`): store at time 0 with
ttl 0, load at time 1. -/
theorem cachedPage_expired_load_absent_and_deleted_witness :
    (1 : Nat) > 0 + 0 ∧
    ((CachedPage_load 1 (CachedPage_store 0 [] "/users" "<html>" (some 0)) "/users").1 = none ∧
     storeGet (CachedPage_load 1 (CachedPage_store 0 [] "/users" "<html>" (some 0)) "/users").2 "/users"
       = (none : Option CachedPageEnt)) :=
  ⟨by decide,
   cachedPage_expired_load_absent_and_deleted [] "/users" "<html>" 0 0 1 (by decide)⟩

/-! ## requests_get (src/util.py lines 137-163)

The network is a parameter: a function from URL to the response the remote
server would send.  `stream=True` means the body is not transferred until
accessed; `requests_get` never accesses it, which the model captures by the
result's `text` being either the remote body (left to later accessors) or one
of the two synthetic refusal messages, and by the blacklist branch never
consulting the network at all. -/

def MAX_HTTP_RESPONSE_SIZE : Nat := 5000000

def HTTP_REQUEST_REFUSED_STATUS_CODE : Nat := 599

def URL_BLACKLIST : List String :=
  ["http://www.evdemon.org/2015/learning-more-about-quill"]

/-- A remote HTTP response: status, the `Content-Length` header if the server
sent one, and the body the server would stream. -/
structure HttpResponse where
  status : Nat
  contentLength : Option String
  body : String
deriving DecidableEq, Repr

/-- Result of `requests_get`: the response the caller sees, plus whether an
outgoing request was performed at all. -/
structure FetchResult where
  status : Nat
  text : String
  requestMade : Bool
deriving DecidableEq, Repr

def isDigitCh (c : Char) : Bool := 48 ≤ c.toNat && c.toNat ≤ 57

def digitsVal (ds : List Char) : Nat := ds.foldl (fun a c => a * 10 + (c.toNat - 48)) 0

/-- Model of `util.is_int(x)` followed by `int(x)` (oauth_dropins.webutil, not under
src/): parses an optionally-negative decimal integer, `none` when `int()` would
raise. -/
def pyInt? (s : String) : Option Int :=
  match s.toList with
  | [] => none
  | '-' :: ds =>
    if !ds.isEmpty && ds.all isDigitCh then some (-(digitsVal ds : Int)) else none
  | ds => if ds.all isDigitCh then some ((digitsVal ds : Int)) else none

def blacklistRefusalText : String := "Sorry, Bridgy has blacklisted this URL."

def oversizeRefusalText (length : String) : String :=
  "Content-Length " ++ length ++ " is larger than our limit " ++
    toString MAX_HTTP_RESPONSE_SIZE ++ "."

/-- `requests_get` (src/util.py lines 137-163).  `headers.get('Content-Length', 0)`
defaults to the integer 0 when the header is absent; `util.is_int` + `int(...)`
is modelled by `pyInt?`. -/
def requests_get (net : String → HttpResponse) (url : String) : FetchResult :=
  if url ∈ URL_BLACKLIST then
    { status := HTTP_REQUEST_REFUSED_STATUS_CODE
      text := blacklistRefusalText
      requestMade := false }
  else
    let resp := net url
    match resp.contentLength with
    | none => { status := resp.status, text := resp.body, requestMade := true }
    | some s =>
      match pyInt? s with
      | some n =>
        if n > (MAX_HTTP_RESPONSE_SIZE : Int) then
          { status := HTTP_REQUEST_REFUSED_STATUS_CODE
            text := oversizeRefusalText s
            requestMade := true }
        else
          { status := resp.status, text := resp.body, requestMade := true }
      | none => { status := resp.status, text := resp.body, requestMade := true }

/-- C9: for every remote fetch whose response announces a Content-Length greater
than the 5000000-byte ceiling, `requests_get` returns a synthetic 599 response
whose text is the refusal message and not the remote body (the body is never
read: the result is fully determined by the header), and for every blacklisted
URL it returns a synthetic 599 response without making any request (the result
does not depend on the network at all). -/
theorem requests_get_refuses_oversize_and_blacklist
    (net net2 : String → HttpResponse) (url blurl shdr : String) (n : Int)
    (hnb : url ∉ URL_BLACKLIST)
    (hcl : (net url).contentLength = some shdr)
    (hn : pyInt? shdr = some n)
    (hbig : n > (MAX_HTTP_RESPONSE_SIZE : Int))
    (hbl : blurl ∈ URL_BLACKLIST) :
    requests_get net url =
      { status := HTTP_REQUEST_REFUSED_STATUS_CODE
        text := oversizeRefusalText shdr
        requestMade := true } ∧
    (requests_get net blurl).status = HTTP_REQUEST_REFUSED_STATUS_CODE ∧
    (requests_get net blurl).requestMade = false ∧
    requests_get net blurl = requests_get net2 blurl := by
  refine ⟨?_, ?_, ?_, ?_⟩
  · unfold requests_get
    rw [if_neg hnb]
    simp only [hcl, hn, if_pos hbig]
  · unfold requests_get
    rw [if_pos hbl]
  · unfold requests_get
    rw [if_pos hbl]
  · unfold requests_get
    rw [if_pos hbl, if_pos hbl]

/-- Witness for C9: a server announcing Content-Length 5000001 on a clean URL,
and the one blacklisted URL, under a concrete network. -/
theorem requests_get_refuses_oversize_and_blacklist_witness :
    "https://example.com/page" ∉ URL_BLACKLIST ∧
    requests_get
        (fun _ => { status := 200, contentLength := some "5000001", body := "big" })
        "https://example.com/page"
      = { status := HTTP_REQUEST_REFUSED_STATUS_CODE
          text := oversizeRefusalText "5000001"
          requestMade := true } ∧
    (requests_get
        (fun _ => { status := 200, contentLength := some "5000001", body := "big" })
        "http://www.evdemon.org/2015/learning-more-about-quill").requestMade = false := by
  refine ⟨by decide, ?_, ?_⟩
  · exact (requests_get_refuses_oversize_and_blacklist
      (fun _ => { status := 200, contentLength := some "5000001", body := "big" })
      (fun _ => { status := 0, contentLength := none, body := "" })
      "https://example.com/page" "http://www.evdemon.org/2015/learning-more-about-quill"
      "5000001" 5000001 (by decide) rfl (by decide) (by decide) (by decide)).1
  · exact (requests_get_refuses_oversize_and_blacklist
      (fun _ => { status := 200, contentLength := some "5000001", body := "big" })
      (fun _ => { status := 0, contentLength := none, body := "" })
      "https://example.com/page" "http://www.evdemon.org/2015/learning-more-about-quill"
      "5000001" 5000001 (by decide) rfl (by decide) (by decide) (by decide)).2.2.1

/-! ## Token authorization for an actor (src/browser.py lines 146-175)

`BrowserHandler.check_token_for_actor`.  The external collaborators are passed
in or carried on the actor record:
* `microformats2.object_urls(actor)` (granary) becomes the actor's `urls` field;
* `gr_source.Source.is_public(actor)` (granary) becomes the `isPublic` field;
* `util.domain_from_link` (oauth_dropins webutil) is the `domain_from_link`
  parameter;
* `src_cls.GR_CLASS.DOMAIN` (granary) is the `siloDomain` parameter.
The `Source` (Account) and `Domain` entity shapes are modelled from the spec's
persisted layout (`models.py` is not under src/): Account carries a `url` and a
stored `domains` list, Domain maps a domain name to its token list. -/

structure Actor where
  urls : List String
  url : Option String
  isPublic : Bool
deriving DecidableEq, Repr

/-- Modelled from the spec: `models.Source` / Account persisted layout
(`Account{id, name, picture, domain_urls[], domains[], features[], last_polled}`);
only the fields read by `check_token_for_actor` are carried. -/
structure SourceEnt where
  url : Option String
  domains : List String
deriving DecidableEq, Repr

/-- Modelled from the spec: `models.Domain` persisted layout
(`Domain{id=domain, tokens[]}`), as a registry keyed by domain name. -/
abbrev DomainRegistry := List (String × List String)

inductive TokenCheckErr where
  | privateAccount
  | missingToken
  | tokenNotAuthorized (domains : List String)
deriving DecidableEq, Repr

instance {e a : Type} [DecidableEq e] [DecidableEq a] : DecidableEq (Except e a)
  | .ok x, .ok y =>
    if h : x = y then isTrue (by rw [h]) else isFalse (fun hc => h (Except.ok.inj hc))
  | .error x, .error y =>
    if h : x = y then isTrue (by rw [h]) else isFalse (fun hc => h (Except.error.inj hc))
  | .ok _, .error _ => isFalse (fun hc => Except.noConfusion hc)
  | .error _, .ok _ => isFalse (fun hc => Except.noConfusion hc)

/-- The candidate domain set as src/browser.py lines 157-168 computes it:
hostnames of the actor's profile URLs, then the stored domains of an Account
with the actor's legacy `url` unioned in, and the silo's own domain discarded
LAST (`domains.discard(src_cls.GR_CLASS.DOMAIN)` runs after the union).
The Python set is modelled as a list used only through membership; duplicates
are irrelevant to every result below. -/
def codeCandidateDomains (domain_from_link : String → String) (siloDomain : String)
    (sources : List SourceEnt) (actor : Actor) : List String :=
  let ds := actor.urls.map domain_from_link
  let u := actor.url.getD ""
  let ds :=
    if u ≠ "" then
      match sources.find? (fun s => s.url == some u) with
      | some s => ds ++ s.domains
      | none => ds
    else ds
  ds.filter (fun d => d != siloDomain)

/-- The candidate domain set exactly as claim C3 (and spec steps (2)-(3)) words
it: the silo's own domain is subtracted from the profile-URL hostnames BEFORE
the matching Account's stored domains are unioned in. -/
def claimCandidateDomains (domain_from_link : String → String) (siloDomain : String)
    (sources : List SourceEnt) (actor : Actor) : List String :=
  let ds := (actor.urls.map domain_from_link).filter (fun d => d != siloDomain)
  let u := actor.url.getD ""
  if u ≠ "" then
    match sources.find? (fun s => s.url == some u) with
    | some s => ds ++ s.domains
    | none => ds
  else ds

/-- `BrowserHandler.check_token_for_actor` (src/browser.py lines 146-175).
`self.abort(status, msg)` becomes `.error (status, payload)`;
`util.get_required_param(self, 'token')` aborts with 400 when the param is
missing/empty. -/
def check_token_for_actor (domain_from_link : String → String) (siloDomain : String)
    (registry : DomainRegistry) (sources : List SourceEnt)
    (actor : Actor) (token : String) : Except (Nat × TokenCheckErr) Unit :=
  if !actor.isPublic then .error (400, .privateAccount)
  else if token = "" then .error (400, .missingToken)
  else
    let domains := codeCandidateDomains domain_from_link siloDomain sources actor
    if domains.any (fun d =>
        match storeGet registry d with
        | some toks => toks.contains token
        | none => false) then
      .ok ()
    else
      .error (403, .tokenNotAuthorized domains)

/-- C3 (amended): for every public actor and nonempty caller-supplied token, the
token check over the candidate domains — computed with the silo domain removed
AFTER the stored-Account union — succeeds iff the token is in the token set of
at least one registered Domain among those candidates, and otherwise fails with
HTTP 403 carrying exactly the computed candidate-domain list. -/
theorem token_check_success_iff_registered_candidate
    (domain_from_link : String → String) (siloDomain : String)
    (registry : DomainRegistry) (sources : List SourceEnt)
    (actor : Actor) (token : String)
    (hpub : actor.isPublic = true) (htok : token ≠ "") :
    (check_token_for_actor domain_from_link siloDomain registry sources actor token
        = .ok () ↔
      ∃ d ∈ codeCandidateDomains domain_from_link siloDomain sources actor,
        ∃ toks, storeGet registry d = some toks ∧ token ∈ toks) ∧
    (check_token_for_actor domain_from_link siloDomain registry sources actor token
        ≠ .ok () →
      check_token_for_actor domain_from_link siloDomain registry sources actor token
        = .error (403, .tokenNotAuthorized
            (codeCandidateDomains domain_from_link siloDomain sources actor))) := by
  unfold check_token_for_actor
  rw [hpub]
  simp only [Bool.not_true, Bool.false_eq_true, if_false, if_neg htok]
  have hany : ((codeCandidateDomains domain_from_link siloDomain sources actor).any
      (fun d => match storeGet registry d with
        | some toks => toks.contains token
        | none => false) = true) ↔
      ∃ d ∈ codeCandidateDomains domain_from_link siloDomain sources actor,
        ∃ toks, storeGet registry d = some toks ∧ token ∈ toks := by
    rw [List.any_eq_true]
    constructor
    · rintro ⟨d, hd, hmatch⟩
      refine ⟨d, hd, ?_⟩
      cases hreg : storeGet registry d with
      | none => rw [hreg] at hmatch; exact absurd hmatch (by simp)
      | some toks =>
        rw [hreg] at hmatch
        exact ⟨toks, rfl, by simpa using hmatch⟩
    · rintro ⟨d, hd, toks, hreg, htk⟩
      refine ⟨d, hd, ?_⟩
      rw [hreg]
      simpa using htk
  constructor
  · constructor
    · intro hok
      by_cases hc : ((codeCandidateDomains domain_from_link siloDomain sources actor).any
          (fun d => match storeGet registry d with
            | some toks => toks.contains token
            | none => false) = true)
      · exact hany.1 hc
      · rw [if_neg hc] at hok
        exact absurd hok (by simp)
    · intro hex
      rw [if_pos (hany.2 hex)]
  · intro hne
    by_cases hc : ((codeCandidateDomains domain_from_link siloDomain sources actor).any
        (fun d => match storeGet registry d with
          | some toks => toks.contains token
          | none => false) = true)
    · rw [if_pos hc] at hne ⊢
      exact absurd rfl hne
    · rw [if_neg hc]

/-- Witness for C3 at a concrete store: token "t" registered for "alice.com",
actor declaring a profile URL whose hostname is "alice.com". -/
theorem token_check_success_iff_registered_candidate_witness :
    ({ urls := ["https://alice.com/"], url := none, isPublic := true } : Actor).isPublic = true ∧
    ("t" : String) ≠ "" ∧
    (check_token_for_actor (fun u => if u = "https://alice.com/" then "alice.com" else "")
        "silo.example" [("alice.com", ["t"])] []
        { urls := ["https://alice.com/"], url := none, isPublic := true } "t"
      = .ok () ↔
      ∃ d ∈ codeCandidateDomains
          (fun u => if u = "https://alice.com/" then "alice.com" else "")
          "silo.example" [] { urls := ["https://alice.com/"], url := none, isPublic := true },
        ∃ toks, storeGet [("alice.com", ["t"])] d = some toks ∧ "t" ∈ toks) :=
  ⟨rfl, by decide,
   (token_check_success_iff_registered_candidate
     (fun u => if u = "https://alice.com/" then "alice.com" else "")
     "silo.example" [("alice.com", ["t"])] []
     { urls := ["https://alice.com/"], url := none, isPublic := true } "t"
     rfl (by decide)).1⟩

/-- Counterexample for C3 as stated: when the silo's own domain sits in the
matching Account's stored `domains`, the claim's candidate set (silo removed
before the union) contains a registered domain holding the token, yet the code
fails: the silo domain is discarded after the union, so the check 403s. -/
theorem token_check_claim_candidates_counterexample :
    (check_token_for_actor (fun u => u) "silo.com"
        [("silo.com", ["t"])]
        [{ url := some "https://silo.com/x", domains := ["silo.com"] }]
        { urls := [], url := some "https://silo.com/x", isPublic := true } "t"
      ≠ .ok ()) ∧
    ∃ d ∈ claimCandidateDomains (fun u => u) "silo.com"
        [{ url := some "https://silo.com/x", domains := ["silo.com"] }]
        { urls := [], url := some "https://silo.com/x", isPublic := true },
      ∃ toks, storeGet [("silo.com", ["t"])] d = some toks ∧ "t" ∈ toks := by
  constructor
  · decide
  · exact ⟨"silo.com", by decide, ["t"], by decide, by decide⟩

/-- C4 (amended): for every actor marked non-public, the authorization check
fails regardless of the supplied token — but with HTTP status 400 (the
handler's "account is private" abort), not 403. -/
theorem private_actor_always_denied
    (domain_from_link : String → String) (siloDomain : String)
    (registry : DomainRegistry) (sources : List SourceEnt)
    (actor : Actor) (token : String)
    (hpriv : actor.isPublic = false) :
    check_token_for_actor domain_from_link siloDomain registry sources actor token
      = .error (400, .privateAccount) := by
  unfold check_token_for_actor
  rw [hpriv]
  rfl

/-- Witness for C4's amended theorem at a concrete private actor. -/
theorem private_actor_always_denied_witness :
    ({ urls := ["https://alice.com/"], url := none, isPublic := false } : Actor).isPublic
        = false ∧
    check_token_for_actor (fun u => u) "silo.example" [("alice.com", ["t"])] []
        { urls := ["https://alice.com/"], url := none, isPublic := false } "t"
      = .error (400, .privateAccount) :=
  ⟨rfl,
   private_actor_always_denied (fun u => u) "silo.example" [("alice.com", ["t"])] []
     { urls := ["https://alice.com/"], url := none, isPublic := false } "t" rfl⟩

/-- Counterexample for C4 as stated: the private-actor denial carries HTTP
status 400, not 403 (`self.abort(400, ... account is private ...)`,
src/browser.py line 152). -/
theorem private_actor_denial_status_counterexample :
    check_token_for_actor (fun u => u) "silo.example" [] []
        { urls := [], url := none, isPublic := false } "t"
      = .error (400, .privateAccount) ∧
    ∀ e : TokenCheckErr,
      check_token_for_actor (fun u => u) "silo.example" [] []
          { urls := [], url := none, isPublic := false } "t"
        ≠ .error (403, e) := by
  constructor
  · decide
  · intro e h
    have : (400 : Nat) = 403 := by
      have h2 := h
      rw [show check_token_for_actor (fun u => u) "silo.example" [] []
          { urls := [], url := none, isPublic := false } "t"
          = .error (400, .privateAccount) from by decide] at h2
      exact congrArg (fun x => match x with
        | Except.error (n, _) => n
        | Except.ok _ => 0) h2
    exact absurd this (by decide)

/-! ## String ordering (Python string comparison)

Python compares strings lexicographically by code point.  `String <` in Lean
does not reduce in the kernel, so the comparison is defined directly on the
character lists. -/

def lcLtB : List Char → List Char → Bool
  | [], [] => false
  | [], _ :: _ => true
  | _ :: _, [] => false
  | a :: as, b :: bs => if a < b then true else if b < a then false else lcLtB as bs

/-- Python's `a < b` on strings: lexicographic by code point. -/
def strLtB (a b : String) : Bool := lcLtB a.toList b.toList

theorem lcLtB_asymm : ∀ a b : List Char, lcLtB a b = true → lcLtB b a = false := by
  intro a
  induction a with
  | nil => intro b hb; cases b <;> simp_all [lcLtB]
  | cons x xs ih =>
    intro b hb
    cases b with
    | nil => simp [lcLtB] at hb
    | cons y ys =>
      unfold lcLtB at hb ⊢
      by_cases hxy : x < y
      · rw [if_neg (asymm hxy), if_pos hxy]
      · by_cases hyx : y < x
        · rw [if_neg hxy, if_pos hyx] at hb
          exact absurd hb (by simp)
        · rw [if_neg hxy, if_neg hyx] at hb
          rw [if_neg hyx, if_neg hxy]
          exact ih ys hb

theorem lcLtB_irrefl (a : List Char) : lcLtB a a = false := by
  cases h : lcLtB a a
  · rfl
  · have h2 := lcLtB_asymm a a h
    rw [h] at h2
    exact absurd h2 (by simp)

theorem lcLtB_trans : ∀ a b c : List Char,
    lcLtB a b = true → lcLtB b c = true → lcLtB a c = true := by
  intro a
  induction a with
  | nil =>
    intro b c hab hbc
    cases b with
    | nil => simp [lcLtB] at hab
    | cons y ys => cases c with
      | nil => simp [lcLtB] at hbc
      | cons z zs => simp [lcLtB]
  | cons x xs ih =>
    intro b c hab hbc
    cases b with
    | nil => simp [lcLtB] at hab
    | cons y ys =>
      cases c with
      | nil => simp [lcLtB] at hbc
      | cons z zs =>
        unfold lcLtB at hab hbc ⊢
        by_cases hxy : x < y
        · -- x < y; compare y z
          by_cases hyz : y < z
          · rw [if_pos (lt_trans hxy hyz)]
          · by_cases hzy : z < y
            · rw [if_neg hyz, if_pos hzy] at hbc
              exact absurd hbc (by simp)
            · have : y = z := le_antisymm (not_lt.1 hzy) (not_lt.1 hyz)
              subst this
              rw [if_pos hxy]
        · by_cases hyx : y < x
          · rw [if_neg hxy, if_pos hyx] at hab
            exact absurd hab (by simp)
          · have hxyeq : x = y := le_antisymm (not_lt.1 hyx) (not_lt.1 hxy)
            subst hxyeq
            rw [if_neg hxy, if_neg hyx] at hab
            by_cases hxz : x < z
            · rw [if_pos hxz]
            · by_cases hzx : z < x
              · rw [if_neg hxz, if_pos hzx] at hbc
                exact absurd hbc (by simp)
              · rw [if_neg hxz, if_neg hzx] at hbc ⊢
                exact ih ys zs hab hbc

theorem lcLtB_connex : ∀ a b : List Char,
    lcLtB a b = false → lcLtB b a = false → a = b := by
  intro a
  induction a with
  | nil => intro b hab _; cases b with
    | nil => rfl
    | cons y ys => simp [lcLtB] at hab
  | cons x xs ih =>
    intro b hab hba
    cases b with
    | nil => simp [lcLtB] at hba
    | cons y ys =>
      unfold lcLtB at hab hba
      by_cases hxy : x < y
      · rw [if_pos hxy] at hab
        exact absurd hab (by simp)
      · by_cases hyx : y < x
        · rw [if_pos hyx] at hba
          exact absurd hba (by simp)
        · have hxyeq : x = y := le_antisymm (not_lt.1 hyx) (not_lt.1 hxy)
          subst hxyeq
          rw [if_neg hxy, if_neg hxy] at hab hba
          rw [ih ys hab hba]

theorem strLtB_asymm (a b : String) : strLtB a b = true → strLtB b a = false :=
  lcLtB_asymm a.toList b.toList

theorem strLtB_irrefl (a : String) : strLtB a a = false :=
  lcLtB_irrefl a.toList

theorem strLtB_trans {a b c : String} :
    strLtB a b = true → strLtB b c = true → strLtB a c = true :=
  lcLtB_trans a.toList b.toList c.toList

theorem strLtB_connex {a b : String} :
    strLtB a b = false → strLtB b a = false → a = b := by
  intro h1 h2
  have hl := lcLtB_connex a.toList b.toList h1 h2
  have hd : a.data = b.data := hl
  cases a
  cases b
  exact congrArg String.mk hd

theorem strLtB_ne {a b : String} (h : strLtB a b = true) : a ≠ b := by
  intro heq
  subst heq
  rw [strLtB_irrefl] at h
  exact absurd h (by simp)

/-! ## Merge engine (src/browser.py lines 23-37)

`merge_by_id(existing, updates)` builds `{o['id']: o for o in existing}`, then
`.update({o['id']: o for o in updates})`, and returns
`sorted(objs.values(), key=itemgetter('id'))`.  `o['id']` raising `KeyError`
when an object has no id is modelled by the `Option` result; ids are strings
(AS1 tag URIs).  Since the dict keys are exactly the values' ids, sorting the
values by id is the same as sorting the pairs by key; Python's sort is stable
and the dict keys are unique, so any insertion sort by key computes the same
list. -/

def itemId (o : Json) : Option String :=
  match o with
  | .obj kvs =>
    match dictGet kvs "id" with
    | some (.str s) => some s
    | _ => none
  | _ => none

/-- `{o['id']: o for o in xs}` before deduplication: the key/value pair list,
failing if some object has no id. -/
def keyItems : List Json → Option (List (String × Json))
  | [] => some []
  | o :: os =>
    match itemId o, keyItems os with
    | some i, some ps => some ((i, o) :: ps)
    | _, _ => none

def ordInsertByKey (p : String × Json) : List (String × Json) → List (String × Json)
  | [] => [p]
  | q :: qs => if strLtB q.1 p.1 then q :: ordInsertByKey p qs else p :: q :: qs

/-- `sorted(..., key=itemgetter('id'))` over the keyed pairs (insertion sort,
ascending by key). -/
def sortPairsByKey : List (String × Json) → List (String × Json)
  | [] => []
  | p :: ps => ordInsertByKey p (sortPairsByKey ps)

/-- `merge_by_id` (src/browser.py lines 23-37). -/
def merge_by_id (existing updates : List Json) : Option (List Json) :=
  match keyItems existing, keyItems updates with
  | some es, some us => some ((sortPairsByKey (dictOfPairs (es ++ us))).map (fun x => x.2))
  | _, _ => none

/-- `p` comes no later than `q` in key order (`¬ q.key < p.key`). -/
def pairKeyLe (p q : String × Json) : Prop := strLtB q.1 p.1 = false

/-- `p` comes strictly before `q` in key order. -/
def pairKeyLt (p q : String × Json) : Prop := strLtB p.1 q.1 = true

instance : DecidableRel pairKeyLe := fun p q => by
  unfold pairKeyLe; infer_instance

instance : DecidableRel pairKeyLt := fun p q => by
  unfold pairKeyLt; infer_instance

theorem pairKeyLe_trans {a b c : String × Json} :
    pairKeyLe a b → pairKeyLe b c → pairKeyLe a c := by
  unfold pairKeyLe
  intro h1 h2
  cases h3 : strLtB c.1 a.1
  · rfl
  · exfalso
    cases h4 : strLtB b.1 c.1
    · have heq : c.1 = b.1 := strLtB_connex h2 h4
      rw [heq] at h3
      rw [h3] at h1
      exact absurd h1 (by simp)
    · have h5 : strLtB b.1 a.1 = true := strLtB_trans h4 h3
      rw [h5] at h1
      exact absurd h1 (by simp)

theorem perm_ordInsertByKey (p : String × Json) (l : List (String × Json)) :
    List.Perm (ordInsertByKey p l) (p :: l) := by
  induction l with
  | nil => exact List.Perm.refl _
  | cons q qs ih =>
    unfold ordInsertByKey
    by_cases h : strLtB q.1 p.1 = true
    · rw [if_pos h]
      exact List.Perm.trans (List.Perm.cons q ih) (List.Perm.swap p q qs)
    · rw [if_neg h]

theorem perm_sortPairsByKey (l : List (String × Json)) :
    List.Perm (sortPairsByKey l) l := by
  induction l with
  | nil => exact List.Perm.refl _
  | cons p ps ih =>
    unfold sortPairsByKey
    exact List.Perm.trans (perm_ordInsertByKey p _) (List.Perm.cons p ih)

theorem mem_ordInsertByKey {x p : String × Json} {l : List (String × Json)} :
    x ∈ ordInsertByKey p l ↔ x = p ∨ x ∈ l := by
  rw [(perm_ordInsertByKey p l).mem_iff]
  simp

theorem pairwise_ordInsertByKey {p : String × Json} {l : List (String × Json)}
    (hl : l.Pairwise pairKeyLe) : (ordInsertByKey p l).Pairwise pairKeyLe := by
  induction l with
  | nil => simp [ordInsertByKey, List.pairwise_cons]
  | cons q qs ih =>
    rw [List.pairwise_cons] at hl
    unfold ordInsertByKey
    by_cases h : strLtB q.1 p.1 = true
    · rw [if_pos h]
      rw [List.pairwise_cons]
      constructor
      · intro r hr
        rcases mem_ordInsertByKey.1 hr with hr | hr
        · subst hr
          exact strLtB_asymm _ _ h
        · exact hl.1 r hr
      · exact ih hl.2
    · rw [if_neg h]
      rw [List.pairwise_cons]
      constructor
      · have hf : strLtB q.1 p.1 = false := by
          cases hx : strLtB q.1 p.1
          · rfl
          · exact absurd hx h
        intro r hr
        rcases List.mem_cons.1 hr with hr | hr
        · subst hr
          exact hf
        · exact pairKeyLe_trans hf (hl.1 r hr)
      · rw [List.pairwise_cons]
        exact ⟨hl.1, hl.2⟩

theorem pairwise_sortPairsByKey (l : List (String × Json)) :
    (sortPairsByKey l).Pairwise pairKeyLe := by
  induction l with
  | nil => exact List.Pairwise.nil
  | cons p ps ih => exact pairwise_ordInsertByKey ih

/-- A list whose keys are already strictly ascending is left unchanged by the
sort. -/
theorem sortPairsByKey_eq_self {l : List (String × Json)}
    (hl : l.Pairwise pairKeyLt) : sortPairsByKey l = l := by
  induction l with
  | nil => rfl
  | cons p ps ih =>
    rw [List.pairwise_cons] at hl
    unfold sortPairsByKey
    rw [ih hl.2]
    cases ps with
    | nil => rfl
    | cons q qs =>
      unfold ordInsertByKey
      rw [if_neg (by
        have := hl.1 q (by simp)
        unfold pairKeyLt at this
        rw [strLtB_asymm _ _ this]
        simp)]

theorem strict_of_le_of_ne_keys {l : List (String × Json)}
    (hle : l.Pairwise pairKeyLe) (hne : (l.map Prod.fst).Nodup) :
    l.Pairwise pairKeyLt := by
  have hne2 : l.Pairwise (fun a b : String × Json => a.1 ≠ b.1) :=
    (List.pairwise_map).1 hne
  have := List.Pairwise.and hle hne2
  exact this.imp (fun h => by
    unfold pairKeyLe at h
    unfold pairKeyLt
    cases h2 : strLtB _ _
    case false =>
      exact absurd (strLtB_connex h2 h.1) h.2
    case true => rfl)

theorem keyItems_map_snd {A : List Json} {ks : List (String × Json)}
    (hk : keyItems A = some ks) : ks.map (fun x => x.2) = A := by
  induction A generalizing ks with
  | nil =>
    unfold keyItems at hk
    cases hk
    rfl
  | cons o os ih =>
    unfold keyItems at hk
    cases hi : itemId o with
    | none => rw [hi] at hk; exact absurd hk (by simp)
    | some i =>
      rw [hi] at hk
      cases hrest : keyItems os with
      | none => rw [hrest] at hk; exact absurd hk (by simp)
      | some ps =>
        rw [hrest] at hk
        simp only [Option.some.injEq] at hk
        subst hk
        simp [ih hrest]

theorem dictInsert_fresh (d : List (String × Json)) (k : String) (v : Json)
    (h : ∀ p ∈ d, p.1 ≠ k) : dictInsert d k v = d ++ [(k, v)] := by
  unfold dictInsert
  rw [if_neg]
  simp only [List.any_eq_true, beq_iff_eq, not_exists]
  intro p
  intro hand
  exact h p hand.1 hand.2

theorem map_replace_self {k : String} {v : Json} : ∀ {ps : List (String × Json)},
    (ps.map Prod.fst).Nodup → (k, v) ∈ ps →
    ps.map (fun p => if p.1 == k then (k, v) else p) = ps := by
  intro ps
  induction ps with
  | nil => intro _ _; rfl
  | cons q qs ih =>
    intro hn hm
    rw [List.map_cons, List.nodup_cons] at hn
    rw [List.map_cons]
    rcases List.mem_cons.1 hm with hq | hq
    · have hqk : q.1 = k := by rw [← hq]
      have hqs : ∀ r ∈ qs, r.1 ≠ k := by
        intro r hr hrk
        apply hn.1
        rw [hqk, ← hrk]
        exact List.mem_map_of_mem Prod.fst hr
      rw [if_pos (by simp [hqk]), ← hq]
      congr 1
      calc qs.map (fun p => if p.1 == k then (k, v) else p)
          = qs.map id := List.map_congr_left (fun r hr => by
            rw [if_neg (by simp [hqs r hr])]
            rfl)
        _ = qs := List.map_id qs
    · have hqk : q.1 ≠ k := by
        intro hqk
        apply hn.1
        rw [hqk]
        have := List.mem_map_of_mem Prod.fst hq
        simpa using this
      rw [if_neg (by simp [hqk]), ih hn.2 hq]

theorem dictInsert_mem_self {ps : List (String × Json)} {k : String} {v : Json}
    (hn : (ps.map Prod.fst).Nodup) (hm : (k, v) ∈ ps) :
    dictInsert ps k v = ps := by
  unfold dictInsert
  rw [if_pos (by
    simp only [List.any_eq_true, beq_iff_eq]
    exact ⟨(k, v), hm, rfl⟩)]
  exact map_replace_self hn hm

theorem foldl_dictInsert_fresh : ∀ (ps : List (String × Json))
    (d : List (String × Json)),
    (∀ p ∈ ps, ∀ q ∈ d, q.1 ≠ p.1) → (ps.map Prod.fst).Nodup →
    ps.foldl (fun d p => dictInsert d p.1 p.2) d = d ++ ps := by
  intro ps
  induction ps with
  | nil => intro d _ _; simp
  | cons p ps ih =>
    intro d hdisj hn
    rw [List.map_cons, List.nodup_cons] at hn
    rw [List.foldl_cons,
      dictInsert_fresh d p.1 p.2 (fun q hq => hdisj p (by simp) q hq)]
    rw [ih (d ++ [(p.1, p.2)]) ?hdisj hn.2]
    · simp
    case hdisj =>
      intro r hr q hq
      rcases List.mem_append.1 hq with hq | hq
      · exact hdisj r (List.mem_cons_of_mem _ hr) q hq
      · simp only [List.mem_singleton] at hq
        subst hq
        intro hcontra
        apply hn.1
        rw [show p.1 = r.1 from hcontra]
        exact List.mem_map_of_mem Prod.fst hr

theorem dictOfPairs_nodup_eq_self {ps : List (String × Json)}
    (hn : (ps.map Prod.fst).Nodup) : dictOfPairs ps = ps := by
  unfold dictOfPairs
  simpa using foldl_dictInsert_fresh ps [] (by simp) hn

theorem foldl_dictInsert_subset : ∀ (qs ps : List (String × Json)),
    (ps.map Prod.fst).Nodup → (∀ q ∈ qs, q ∈ ps) →
    qs.foldl (fun d p => dictInsert d p.1 p.2) ps = ps := by
  intro qs
  induction qs with
  | nil => intro ps _ _; rfl
  | cons q qs ih =>
    intro ps hn hsub
    rw [List.foldl_cons, dictInsert_mem_self hn (hsub q (by simp))]
    exact ih ps hn (fun r hr => hsub r (List.mem_cons_of_mem _ hr))

theorem dictOfPairs_self_append {ps : List (String × Json)}
    (hn : (ps.map Prod.fst).Nodup) : dictOfPairs (ps ++ ps) = ps := by
  unfold dictOfPairs
  rw [List.foldl_append]
  have h1 : ps.foldl (fun d p => dictInsert d p.1 p.2) [] = ps := by
    simpa using foldl_dictInsert_fresh ps [] (by simp) hn
  rw [h1]
  exact foldl_dictInsert_subset ps ps hn (fun q hq => hq)

/-- C5 (amended): merging a list of id-carrying activity objects with itself
returns it unchanged precisely when the list is already in the merge's
canonical form: ids strictly ascending (in particular distinct).  For such `A`,
`merge_by_id A A = A`; for unsorted or duplicate-id lists the merge re-sorts
and deduplicates, so the result can differ from `A`. -/
theorem merge_by_id_self_sorted (A : List Json) (ks : List (String × Json))
    (hk : keyItems A = some ks)
    (hsorted : ks.Pairwise pairKeyLt) :
    merge_by_id A A = some A := by
  have hn : (ks.map Prod.fst).Nodup := by
    apply (List.pairwise_map).2
    exact hsorted.imp (fun h => strLtB_ne h)
  unfold merge_by_id
  rw [hk]
  show some ((sortPairsByKey (dictOfPairs (ks ++ ks))).map (fun x => x.2)) = some A
  rw [dictOfPairs_self_append hn, sortPairsByKey_eq_self hsorted, keyItems_map_snd hk]

/-- Witness for C5's amended theorem: a two-element list already strictly
sorted by id. -/
theorem merge_by_id_self_sorted_witness :
    keyItems [Json.obj [("id", .str "1"), ("content", .str "a")],
              Json.obj [("id", .str "2"), ("content", .str "b")]]
      = some [("1", Json.obj [("id", .str "1"), ("content", .str "a")]),
              ("2", Json.obj [("id", .str "2"), ("content", .str "b")])] ∧
    merge_by_id
        [Json.obj [("id", .str "1"), ("content", .str "a")],
         Json.obj [("id", .str "2"), ("content", .str "b")]]
        [Json.obj [("id", .str "1"), ("content", .str "a")],
         Json.obj [("id", .str "2"), ("content", .str "b")]]
      = some [Json.obj [("id", .str "1"), ("content", .str "a")],
              Json.obj [("id", .str "2"), ("content", .str "b")]] :=
  ⟨by decide,
   merge_by_id_self_sorted
     [Json.obj [("id", .str "1"), ("content", .str "a")],
      Json.obj [("id", .str "2"), ("content", .str "b")]]
     [("1", Json.obj [("id", .str "1"), ("content", .str "a")]),
      ("2", Json.obj [("id", .str "2"), ("content", .str "b")])]
     (by decide) (by decide)⟩

/-- Counterexample for C5 as stated: for a list whose objects are not sorted by
id, `merge_by_id A A` re-sorts, so the result differs from `A`. -/
theorem merge_by_id_self_counterexample :
    merge_by_id
        [Json.obj [("id", .str "2")], Json.obj [("id", .str "1")]]
        [Json.obj [("id", .str "2")], Json.obj [("id", .str "1")]]
      = some [Json.obj [("id", .str "1")], Json.obj [("id", .str "2")]] ∧
    some [Json.obj [("id", .str "1")], Json.obj [("id", .str "2")]]
      ≠ some [Json.obj [("id", .str "2")], Json.obj [("id", .str "1")]] := by
  constructor
  · decide
  · decide


/-! ## Dict lookup lemmas for the merge characterization -/

theorem dictGet_dictInsert_self (d : List (String × Json)) (k : String) (v : Json) :
    dictGet (dictInsert d k v) k = some v := by
  unfold dictInsert
  by_cases h : d.any (fun p => p.1 == k) = true
  · rw [if_pos h]
    induction d with
    | nil => simp at h
    | cons p ps ih =>
      by_cases hp : p.1 = k
      · unfold dictGet
        rw [List.map_cons, if_pos (by simp [hp]), List.find?_cons_of_pos _ (by simp)]
        rfl
      · have h2 : ps.any (fun p => p.1 == k) = true := by
          rcases List.any_eq_true.1 h with ⟨q, hq, hqk⟩
          rcases List.mem_cons.1 hq with hq | hq
          · subst hq
            exact absurd (by simpa using hqk) hp
          · exact List.any_eq_true.2 ⟨q, hq, hqk⟩
        unfold dictGet at ih ⊢
        rw [List.map_cons, if_neg (by simp [hp]),
          List.find?_cons_of_neg _ (by simp [hp])]
        exact ih h2
  · rw [if_neg h]
    unfold dictGet
    rw [List.find?_append]
    have h1 : d.find? (fun p => p.1 == k) = none := by
      rw [List.find?_eq_none]
      intro q hq hqk
      exact h (List.any_eq_true.2 ⟨q, hq, hqk⟩)
    rw [h1]
    simp [List.find?]

theorem dictGet_dictInsert_ne (d : List (String × Json)) (k s : String) (v : Json)
    (hne : s ≠ k) : dictGet (dictInsert d k v) s = dictGet d s := by
  unfold dictInsert
  by_cases h : d.any (fun p => p.1 == k) = true
  · rw [if_pos h]
    clear h
    induction d with
    | nil => rfl
    | cons p ps ih =>
      rw [List.map_cons]
      by_cases hp : p.1 = k
      · rw [if_pos (by simp [hp])]
        unfold dictGet
        rw [List.find?_cons_of_neg _ (by simp [Ne.symm hne]),
          List.find?_cons_of_neg _ (by simp [hp, Ne.symm hne])]
        exact ih
      · rw [if_neg (by simp [hp])]
        unfold dictGet
        by_cases hps : p.1 = s
        · rw [List.find?_cons_of_pos _ (by simp [hps]),
            List.find?_cons_of_pos _ (by simp [hps])]
        · rw [List.find?_cons_of_neg _ (by simp [hps]),
            List.find?_cons_of_neg _ (by simp [hps])]
          exact ih
  · rw [if_neg h]
    unfold dictGet
    rw [List.find?_append]
    cases hfind : d.find? (fun p => p.1 == s) with
    | some q => rfl
    | none =>
      rw [List.find?_cons_of_neg _ (by simp [Ne.symm hne]), List.find?_nil]
      rfl

/-- `dictInsert` leaves the key list unchanged when the key is present, and
appends it otherwise; either way key uniqueness is preserved. -/
theorem dictInsert_keys_nodup {d : List (String × Json)} (k : String) (v : Json)
    (hn : (d.map Prod.fst).Nodup) : ((dictInsert d k v).map Prod.fst).Nodup := by
  unfold dictInsert
  by_cases h : d.any (fun p => p.1 == k) = true
  · rw [if_pos h]
    have : (d.map (fun p => if p.1 == k then (k, v) else p)).map Prod.fst
        = d.map Prod.fst := by
      rw [List.map_map]
      apply List.map_congr_left
      intro p hp
      by_cases hpk : p.1 = k
      · simp [hpk]
      · simp [hpk]
    rw [this]
    exact hn
  · rw [if_neg h]
    rw [List.map_append]
    simp only [List.map_cons, List.map_nil]
    rw [List.nodup_append]
    refine ⟨hn, List.nodup_singleton k, ?_⟩
    intro a ha hb
    simp only [List.mem_singleton] at hb
    subst hb
    rcases List.mem_map.1 ha with ⟨p, hp, hpk⟩
    exact h (List.any_eq_true.2 ⟨p, hp, by simp [hpk]⟩)

theorem dictOfPairs_keys_nodup (ps : List (String × Json)) :
    ((dictOfPairs ps).map Prod.fst).Nodup := by
  unfold dictOfPairs
  suffices h : ∀ d : List (String × Json), (d.map Prod.fst).Nodup →
      ((ps.foldl (fun d p => dictInsert d p.1 p.2) d).map Prod.fst).Nodup by
    exact h [] (by simp)
  induction ps with
  | nil => intro d hd; exact hd
  | cons p ps ih =>
    intro d hd
    rw [List.foldl_cons]
    exact ih _ (dictInsert_keys_nodup p.1 p.2 hd)

theorem dictInsert_mem_sub {q : String × Json} {d : List (String × Json)}
    {k : String} {v : Json} (hq : q ∈ dictInsert d k v) : q ∈ d ∨ q = (k, v) := by
  unfold dictInsert at hq
  by_cases h : d.any (fun p => p.1 == k) = true
  · rw [if_pos h] at hq
    rcases List.mem_map.1 hq with ⟨p, hp, hpq⟩
    by_cases hpk : p.1 = k
    · rw [if_pos (by simp [hpk])] at hpq
      right
      rw [← hpq]
    · rw [if_neg (by simp [hpk])] at hpq
      left
      rw [← hpq]
      exact hp
  · rw [if_neg h] at hq
    rcases List.mem_append.1 hq with hq | hq
    · left; exact hq
    · right; simpa using hq

theorem dictOfPairs_mem_sub {q : String × Json} {ps : List (String × Json)}
    (hq : q ∈ dictOfPairs ps) : q ∈ ps := by
  unfold dictOfPairs at hq
  suffices h : ∀ d : List (String × Json), q ∈ ps.foldl (fun d p => dictInsert d p.1 p.2) d →
      q ∈ d ∨ q ∈ ps by
    rcases h [] hq with hc | hc
    · exact absurd hc (by simp)
    · exact hc
  clear hq
  induction ps with
  | nil => intro d hd; exact Or.inl hd
  | cons p ps ih =>
    intro d hd
    rw [List.foldl_cons] at hd
    rcases ih _ hd with hc | hc
    · rcases dictInsert_mem_sub hc with hc2 | hc2
      · exact Or.inl hc2
      · right
        rw [hc2]
        simp
    · right
      exact List.mem_cons_of_mem _ hc

/-- The dict built from a pair list binds each key to its LAST occurrence:
`dictGet (dictOfPairs ps) s` is the last pair of `ps` with key `s`. -/
theorem dictGet_dictOfPairs_last (ps : List (String × Json)) (s : String) :
    dictGet (dictOfPairs ps) s = (ps.reverse.find? (fun p => p.1 == s)).map (fun x => x.2) := by
  induction ps using List.reverseRecOn with
  | nil => rfl
  | append_singleton qs p ih =>
    have hfold : dictOfPairs (qs ++ [p]) = dictInsert (dictOfPairs qs) p.1 p.2 := by
      unfold dictOfPairs
      rw [List.foldl_append]
      rfl
    rw [hfold, List.reverse_append]
    simp only [List.reverse_singleton, List.singleton_append]
    by_cases hs : s = p.1
    · subst hs
      rw [dictGet_dictInsert_self, List.find?_cons_of_pos _ (by simp)]
      rfl
    · rw [dictGet_dictInsert_ne _ _ _ _ hs,
        List.find?_cons_of_neg _ (by
          simp only [beq_iff_eq]
          exact fun h => hs h.symm)]
      exact ih

theorem dictGet_eq_some_of_mem {d : List (String × Json)} {s : String} {v : Json}
    (hn : (d.map Prod.fst).Nodup) (hm : (s, v) ∈ d) : dictGet d s = some v := by
  induction d with
  | nil => exact absurd hm (by simp)
  | cons p ps ih =>
    rw [List.map_cons, List.nodup_cons] at hn
    rcases List.mem_cons.1 hm with hm | hm
    · unfold dictGet
      rw [List.find?_cons_of_pos _ (by simp [← hm])]
      rw [← hm]
      rfl
    · have hps : p.1 ≠ s := by
        intro hps
        apply hn.1
        rw [hps]
        have := List.mem_map_of_mem Prod.fst hm
        simpa using this
      unfold dictGet
      rw [List.find?_cons_of_neg _ (by simp [hps])]
      exact ih hn.2 hm

theorem mem_of_dictGet_eq_some {d : List (String × Json)} {s : String} {v : Json}
    (h : dictGet d s = some v) : (s, v) ∈ d := by
  unfold dictGet at h
  cases hf : d.find? (fun p => p.1 == s) with
  | none => rw [hf] at h; exact absurd h (by simp)
  | some q =>
    rw [hf] at h
    have h2 : q.2 = v := by simpa using h
    have hq := List.find?_some hf
    have hqm := List.mem_of_find?_eq_some hf
    have : q = (s, v) := by
      obtain ⟨a, b⟩ := q
      simp only [beq_iff_eq] at hq
      simp only [Prod.mk.injEq]
      exact ⟨hq, h2⟩
    rw [← this]
    exact hqm

theorem dictGet_none_iff {d : List (String × Json)} {s : String} :
    dictGet d s = none ↔ ∀ v, (s, v) ∉ d := by
  unfold dictGet
  constructor
  · intro h v hm
    cases hf : d.find? (fun p => p.1 == s) with
    | none =>
      rw [List.find?_eq_none] at hf
      exact hf (s, v) hm (by simp)
    | some q => rw [hf] at h; exact absurd h (by simp)
  · intro h
    cases hf : d.find? (fun p => p.1 == s) with
    | none => rfl
    | some q =>
      have hq := List.find?_some hf
      have hqm := List.mem_of_find?_eq_some hf
      obtain ⟨a, b⟩ := q
      simp only [beq_iff_eq] at hq
      subst hq
      exact absurd hqm (h b)

/-- Lookup in a dict with unique keys is invariant under permutation. -/
theorem dictGet_perm {d1 d2 : List (String × Json)} (hp : List.Perm d1 d2)
    (hn : (d1.map Prod.fst).Nodup) (s : String) : dictGet d1 s = dictGet d2 s := by
  have hn2 : (d2.map Prod.fst).Nodup := (hp.map Prod.fst).nodup_iff.1 hn
  cases h1 : dictGet d1 s with
  | some v =>
    have := mem_of_dictGet_eq_some h1
    exact (dictGet_eq_some_of_mem hn2 (hp.mem_iff.1 this)).symm
  | none =>
    cases h2 : dictGet d2 s with
    | none => rfl
    | some v =>
      have := mem_of_dictGet_eq_some h2
      rw [dictGet_none_iff] at h1
      exact absurd (hp.mem_iff.2 this) (h1 v)


/-! ## keyItems lemmas -/

theorem optBeq_some_some (a b : String) : ((some a == some b) = (a == b)) := rfl

theorem keyItems_mem_itemId {xs : List Json} {ks : List (String × Json)}
    (hk : keyItems xs = some ks) : ∀ p ∈ ks, itemId p.2 = some p.1 := by
  induction xs generalizing ks with
  | nil =>
    unfold keyItems at hk
    cases hk
    intro p hp
    exact absurd hp (by simp)
  | cons o os ih =>
    unfold keyItems at hk
    cases hi : itemId o with
    | none => rw [hi] at hk; exact absurd hk (by simp)
    | some i =>
      rw [hi] at hk
      cases hrest : keyItems os with
      | none => rw [hrest] at hk; exact absurd hk (by simp)
      | some ps =>
        rw [hrest] at hk
        simp only [Option.some.injEq] at hk
        subst hk
        intro p hp
        rcases List.mem_cons.1 hp with hp | hp
        · subst hp; exact hi
        · exact ih hrest p hp

theorem keyItems_append {xs ys : List Json} {a b : List (String × Json)}
    (hx : keyItems xs = some a) (hy : keyItems ys = some b) :
    keyItems (xs ++ ys) = some (a ++ b) := by
  induction xs generalizing a with
  | nil =>
    unfold keyItems at hx
    cases hx
    simpa using hy
  | cons o os ih =>
    unfold keyItems at hx
    cases hi : itemId o with
    | none => rw [hi] at hx; exact absurd hx (by simp)
    | some i =>
      rw [hi] at hx
      cases hrest : keyItems os with
      | none => rw [hrest] at hx; exact absurd hx (by simp)
      | some ps =>
        rw [hrest] at hx
        simp only [Option.some.injEq] at hx
        subst hx
        rw [List.cons_append]
        unfold keyItems
        rw [hi, ih hrest]
        rfl

theorem keyItems_reverse {xs : List Json} {ks : List (String × Json)}
    (hk : keyItems xs = some ks) : keyItems xs.reverse = some ks.reverse := by
  induction xs generalizing ks with
  | nil =>
    unfold keyItems at hk
    cases hk
    rfl
  | cons o os ih =>
    unfold keyItems at hk
    cases hi : itemId o with
    | none => rw [hi] at hk; exact absurd hk (by simp)
    | some i =>
      rw [hi] at hk
      cases hrest : keyItems os with
      | none => rw [hrest] at hk; exact absurd hk (by simp)
      | some ps =>
        rw [hrest] at hk
        simp only [Option.some.injEq] at hk
        subst hk
        rw [List.reverse_cons, List.reverse_cons]
        apply keyItems_append (ih hrest)
        unfold keyItems
        rw [hi]
        rfl

/-- Searching the keyed pairs by key equals searching the raw items by id. -/
theorem find_pairs_items {xs : List Json} {ks : List (String × Json)}
    (hk : keyItems xs = some ks) (s : String) :
    (ks.find? (fun p => p.1 == s)).map (fun x => x.2)
      = xs.find? (fun o => itemId o == some s) := by
  induction xs generalizing ks with
  | nil =>
    unfold keyItems at hk
    cases hk
    rfl
  | cons o os ih =>
    unfold keyItems at hk
    cases hi : itemId o with
    | none => rw [hi] at hk; exact absurd hk (by simp)
    | some i =>
      rw [hi] at hk
      cases hrest : keyItems os with
      | none => rw [hrest] at hk; exact absurd hk (by simp)
      | some ps =>
        rw [hrest] at hk
        simp only [Option.some.injEq] at hk
        subst hk
        by_cases his : i = s
        · rw [List.find?_cons_of_pos _ (by simp [his]),
            List.find?_cons_of_pos _ (by rw [hi, optBeq_some_some]; simp [his])]
          rfl
        · rw [List.find?_cons_of_neg _ (by simp [his]),
            List.find?_cons_of_neg _ (by rw [hi, optBeq_some_some]; simp [his])]
          exact ih hrest

/-- Searching a pair list's values by id equals looking the pair list up by key,
when every pair's value carries its key as id. -/
theorem find_values_eq_dictGet {ps : List (String × Json)}
    (hinv : ∀ p ∈ ps, itemId p.2 = some p.1) (s : String) :
    (ps.map (fun x => x.2)).find? (fun o => itemId o == some s) = dictGet ps s := by
  induction ps with
  | nil => rfl
  | cons p qs ih =>
    have hp := hinv p (by simp)
    rw [List.map_cons]
    by_cases hps : p.1 = s
    · rw [List.find?_cons_of_pos _ (by rw [hp, optBeq_some_some]; simp [hps])]
      unfold dictGet
      rw [List.find?_cons_of_pos _ (by simp [hps])]
      rfl
    · rw [List.find?_cons_of_neg _ (by rw [hp, optBeq_some_some]; simp [hps])]
      unfold dictGet
      rw [List.find?_cons_of_neg _ (by simp [hps])]
      exact ih (fun q hq => hinv q (List.mem_cons_of_mem _ hq))

theorem keyItems_of_pairs {ps : List (String × Json)}
    (hinv : ∀ p ∈ ps, itemId p.2 = some p.1) :
    keyItems (ps.map (fun x => x.2)) = some ps := by
  induction ps with
  | nil => rfl
  | cons p qs ih =>
    rw [List.map_cons]
    unfold keyItems
    rw [hinv p (by simp), ih (fun q hq => hinv q (List.mem_cons_of_mem _ hq))]

/-! ## The merged reply collection -/

/-- The keyed pairs of the merged collection: seed a dict with the pairs of the
incoming items, overwrite with the pairs of the existing items, sort by id. -/
def mergedPairs (nks eks : List (String × Json)) : List (String × Json) :=
  sortPairsByKey (dictOfPairs (nks ++ eks))

/-- The merged reply item list itself. -/
def mergedItems (nks eks : List (String × Json)) : List Json :=
  (mergedPairs nks eks).map (fun x => x.2)

theorem mergedPairs_keys_nodup (nks eks : List (String × Json)) :
    ((mergedPairs nks eks).map Prod.fst).Nodup := by
  have hperm := (perm_sortPairsByKey (dictOfPairs (nks ++ eks))).map Prod.fst
  exact hperm.nodup_iff.2 (dictOfPairs_keys_nodup _)

theorem mergedPairs_strict_sorted (nks eks : List (String × Json)) :
    (mergedPairs nks eks).Pairwise pairKeyLt :=
  strict_of_le_of_ne_keys (pairwise_sortPairsByKey _) (mergedPairs_keys_nodup nks eks)

theorem mergedPairs_inv {newItems exItems : List Json} {nks eks : List (String × Json)}
    (hkn : keyItems newItems = some nks) (hke : keyItems exItems = some eks) :
    ∀ p ∈ mergedPairs nks eks, itemId p.2 = some p.1 := by
  intro p hp
  have hp2 : p ∈ dictOfPairs (nks ++ eks) :=
    (perm_sortPairsByKey _).mem_iff.1 hp
  have hp3 : p ∈ nks ++ eks := dictOfPairs_mem_sub hp2
  rcases List.mem_append.1 hp3 with hp4 | hp4
  · exact keyItems_mem_itemId hkn p hp4
  · exact keyItems_mem_itemId hke p hp4

/-- The central characterization of the merged reply items, shared by the
PostHandler theorems: for every id, the merged collection holds the last
EXISTING item with that id when one exists, else the last incoming item with
that id; the ids are strictly ascending (so each id occurs exactly once); and
`keyItems` recovers the sorted keyed pairs. -/
theorem mergedItems_spec {newItems exItems : List Json} {nks eks : List (String × Json)}
    (hkn : keyItems newItems = some nks) (hke : keyItems exItems = some eks) :
    (∀ s : String,
      (mergedItems nks eks).find? (fun o => itemId o == some s)
        = ((exItems.reverse.find? (fun o => itemId o == some s)).or
           (newItems.reverse.find? (fun o => itemId o == some s)))) ∧
    keyItems (mergedItems nks eks) = some (mergedPairs nks eks) ∧
    (mergedPairs nks eks).Pairwise pairKeyLt := by
  refine ⟨?_, keyItems_of_pairs (mergedPairs_inv hkn hke), mergedPairs_strict_sorted nks eks⟩
  intro s
  rw [show (mergedItems nks eks) = (mergedPairs nks eks).map (fun x => x.2) from rfl,
    find_values_eq_dictGet (mergedPairs_inv hkn hke) s]
  rw [show mergedPairs nks eks = sortPairsByKey (dictOfPairs (nks ++ eks)) from rfl]
  rw [dictGet_perm (perm_sortPairsByKey _) (by
    have hperm := (perm_sortPairsByKey (dictOfPairs (nks ++ eks))).map Prod.fst
    exact hperm.nodup_iff.2 (dictOfPairs_keys_nodup _)) s]
  rw [dictGet_dictOfPairs_last (nks ++ eks) s]
  rw [List.reverse_append, List.find?_append]
  rw [← find_pairs_items (keyItems_reverse hke) s,
    ← find_pairs_items (keyItems_reverse hkn) s]
  cases eks.reverse.find? (fun p => p.1 == s) with
  | none => rfl
  | some q => rfl


/-! ## PostHandler merge step (src/browser.py lines 266-308)

The external pieces:
* `copy.deepcopy(new_activity)` on pure values is the value itself;
* `granary.source.merge_by_id(obj, field, new)` (called at line 294) is
  external library code not under src/; it is the same merge algorithm that
  src/browser.py itself defines under the same name at lines 23-37 ("Overwrites
  the objects in the existing list with objects in the updates list with the
  same id"), applied in place to the field:
  `obj[field] = merge_by_id(obj.get(field, []), new)`;
* `json_loads`/`json_dumps` at the datastore boundary are modelled as the
  identity on the parsed `Json` value (the Activity record stores the value).
-/

/-- `d.setdefault(k, v)`: returns the (possibly extended) dict and the value now
stored under `k`. -/
def dictSetdefault (d : List (String × Json)) (k : String) (v : Json) :
    List (String × Json) × Json :=
  match dictGet d k with
  | some x => (d, x)
  | none => (d ++ [(k, v)], v)

/-- `body.get('object', {}).get('replies', {}).get('items', [])`: the reply
items of an activity body; `none` models the exceptions Python would raise when
an intermediate value is not a dict or the items are not a list. -/
def repliesItemsOf (body : Json) : Option (List Json) :=
  match body with
  | .obj kvs =>
    match dictGet kvs "object" with
    | none => some []
    | some (.obj okvs) =>
      match dictGet okvs "replies" with
      | none => some []
      | some (.obj rkvs) =>
        match dictGet rkvs "items" with
        | none => some []
        | some (.arr items) => some items
        | some _ => none
      | some _ => none
    | some _ => none
  | _ => none

/-- `body['object']['replies']['totalItems']`, for inspecting the merged
result. -/
def repliesTotalOf (body : Json) : Option Json :=
  match body with
  | .obj kvs =>
    match dictGet kvs "object" with
    | some (.obj okvs) =>
      match dictGet okvs "replies" with
      | some (.obj rkvs) => dictGet rkvs "totalItems"
      | _ => none
    | _ => none
  | _ => none

/-- Model of `granary.source.merge_by_id(obj, field, new)` (external, see the
section comment): `obj[field] = merge_by_id(obj.get(field, []), new)`.  The
map is seeded from `obj[field]` and overwritten by the `new` entries, exactly
as in src/browser.py lines 35-36. -/
def gr_merge_by_id (obj : List (String × Json)) (field : String) (new : List Json) :
    Option (List (String × Json)) :=
  match dictGet obj field with
  | some (.arr cur) => (merge_by_id cur new).map (fun ms => dictInsert obj field (.arr ms))
  | none => (merge_by_id [] new).map (fun ms => dictInsert obj field (.arr ms))
  | some _ => none

/-- `len(replies.get('items', []))` (the list arm is the only reachable one:
the merge has just stored a list under `items`). -/
def repliesItemsLen (rkvs : List (String × Json)) : Nat :=
  match dictGet rkvs "items" with
  | some (.arr xs) => xs.length
  | _ => 0

/-- `replies['totalItems'] = len(replies.get('items', []))` followed by the
write-back of the mutated aliases into the copied activity. -/
def postAssemble (kvs1 okvs1 rkvs2 : List (String × Json)) : Json :=
  .obj (dictInsert kvs1 "object"
    (.obj (dictInsert okvs1 "replies"
      (.obj (dictInsert rkvs2 "totalItems" (.num (repliesItemsLen rkvs2)))))))

/-- The merge step of `PostHandler.post` for an already-stored activity
(src/browser.py lines 290-298):

    merged_activity = copy.deepcopy(new_activity)
    replies = merged_activity.setdefault('object', {}).setdefault('replies', {})
    gr_source.merge_by_id(replies, 'items', existing items)
    replies['totalItems'] = len(replies.get('items', []))

The in-place mutation through the `setdefault` aliases is written back
explicitly. -/
def postMergeReplies (new_activity existing_activity : Json) : Option Json :=
  match new_activity with
  | .obj kvs =>
    match dictSetdefault kvs "object" (.obj []) with
    | (kvs1, .obj okvs) =>
      match dictSetdefault okvs "replies" (.obj []) with
      | (okvs1, .obj rkvs) =>
        match repliesItemsOf existing_activity with
        | none => none
        | some exItems =>
          (gr_merge_by_id rkvs "items" exItems).map (postAssemble kvs1 okvs1)
      | _ => none
    | _ => none
  | _ => none

/-- The merged body with its recomputed `totalItems`, in the normal form used
by the characterization lemmas. -/
def assembleMerged (kvs1 okvs1 rkvs2 : List (String × Json)) (ms : List Json) : Json :=
  .obj (dictInsert kvs1 "object"
    (.obj (dictInsert okvs1 "replies"
      (.obj (dictInsert rkvs2 "totalItems" (.num ms.length))))))

theorem postAssemble_eq (kvs1 okvs1 rkvs : List (String × Json)) (ms : List Json) :
    postAssemble kvs1 okvs1 (dictInsert rkvs "items" (.arr ms))
      = assembleMerged kvs1 okvs1 (dictInsert rkvs "items" (.arr ms)) ms := by
  unfold postAssemble assembleMerged repliesItemsLen
  rw [dictGet_dictInsert_self]

theorem assembleMerged_lookups (kvs1 okvs1 rkvs2 : List (String × Json)) (ms : List Json)
    (hitems : dictGet rkvs2 "items" = some (.arr ms)) :
    repliesItemsOf (assembleMerged kvs1 okvs1 rkvs2 ms) = some ms ∧
    repliesTotalOf (assembleMerged kvs1 okvs1 rkvs2 ms) = some (.num ms.length) := by
  have htot : dictGet (dictInsert rkvs2 "totalItems" (.num ms.length)) "items"
      = some (.arr ms) := by
    rw [dictGet_dictInsert_ne _ _ _ _ (by decide)]
    exact hitems
  constructor
  · unfold assembleMerged
    simp only [repliesItemsOf, dictGet_dictInsert_self, htot]
  · unfold assembleMerged
    simp only [repliesTotalOf, dictGet_dictInsert_self]

/-- Decomposition of `postMergeReplies`: once the incoming body's reply items
are `newItems`, the merge step computes, for any existing body whose items are
`exItems`, the reassembled copy whose item list is
`merge_by_id newItems exItems` (incoming items seed the map, existing items
overwrite). -/
theorem postMergeReplies_decomp {kvs : List (String × Json)} {newItems : List Json}
    (hnew : repliesItemsOf (.obj kvs) = some newItems) :
    ∃ kvs1 okvs1 rkvs : List (String × Json),
      ∀ ex exItems, repliesItemsOf ex = some exItems →
        postMergeReplies (.obj kvs) ex
          = (merge_by_id newItems exItems).map
              (fun ms => postAssemble kvs1 okvs1 (dictInsert rkvs "items" (.arr ms))) := by
  simp only [repliesItemsOf] at hnew
  cases hobj : dictGet kvs "object" with
  | none =>
    rw [hobj] at hnew
    have hni : newItems = [] := by simpa using hnew.symm
    subst hni
    refine ⟨kvs ++ [("object", .obj [])], [("replies", .obj [])], [], ?_⟩
    intro ex exItems hex
    have hsd1 : dictSetdefault kvs "object" (.obj [])
        = (kvs ++ [("object", .obj [])], .obj []) := by
      unfold dictSetdefault
      rw [hobj]
    have hit0 : dictGet ([] : List (String × Json)) "items" = none := rfl
    simp only [postMergeReplies, hsd1, hex, gr_merge_by_id, hit0, Option.map_map]
    cases merge_by_id [] exItems <;> rfl
  | some v =>
    rw [hobj] at hnew
    cases v with
    | obj okvs =>
      have hsd1 : dictSetdefault kvs "object" (.obj []) = (kvs, .obj okvs) := by
        unfold dictSetdefault
        rw [hobj]
      cases hrep : dictGet okvs "replies" with
      | none =>
        simp only [hrep] at hnew
        have hni : newItems = [] := by simpa using hnew.symm
        subst hni
        refine ⟨kvs, okvs ++ [("replies", .obj [])], [], ?_⟩
        intro ex exItems hex
        have hsd2 : dictSetdefault okvs "replies" (.obj [])
            = (okvs ++ [("replies", .obj [])], .obj []) := by
          unfold dictSetdefault
          rw [hrep]
        have hit0 : dictGet ([] : List (String × Json)) "items" = none := rfl
        simp only [postMergeReplies, hsd1, hsd2, hex, gr_merge_by_id, hit0, Option.map_map]
        cases merge_by_id [] exItems <;> rfl
      | some w =>
        simp only [hrep] at hnew
        cases w with
        | obj rkvs =>
          have hsd2 : dictSetdefault okvs "replies" (.obj []) = (okvs, .obj rkvs) := by
            unfold dictSetdefault
            rw [hrep]
          cases hit : dictGet rkvs "items" with
          | none =>
            simp only [hit] at hnew
            have hni : newItems = [] := by simpa using hnew.symm
            subst hni
            refine ⟨kvs, okvs, rkvs, ?_⟩
            intro ex exItems hex
            simp only [postMergeReplies, hsd1, hsd2, hex, gr_merge_by_id, hit, Option.map_map]
            cases merge_by_id [] exItems <;> rfl
          | some u =>
            simp only [hit] at hnew
            cases u with
            | arr items =>
              have hni : newItems = items := by simpa using hnew.symm
              rw [← hni] at hit
              refine ⟨kvs, okvs, rkvs, ?_⟩
              intro ex exItems hex
              simp only [postMergeReplies, hsd1, hsd2, hex, gr_merge_by_id, hit, Option.map_map]
              cases merge_by_id newItems exItems <;> rfl
            | null => exact absurd hnew (by simp)
            | bool b => exact absurd hnew (by simp)
            | num n => exact absurd hnew (by simp)
            | str s => exact absurd hnew (by simp)
            | obj qs => exact absurd hnew (by simp)
        | null => exact absurd hnew (by simp)
        | bool b => exact absurd hnew (by simp)
        | num n => exact absurd hnew (by simp)
        | str s => exact absurd hnew (by simp)
        | arr ys => exact absurd hnew (by simp)
    | null => exact absurd hnew (by simp)
    | bool b => exact absurd hnew (by simp)
    | num n => exact absurd hnew (by simp)
    | str s => exact absurd hnew (by simp)
    | arr ys => exact absurd hnew (by simp)


theorem repliesItemsOf_obj_shape {j : Json} {xs : List Json}
    (h : repliesItemsOf j = some xs) : ∃ kvs, j = .obj kvs := by
  cases j with
  | obj kvs => exact ⟨kvs, rfl⟩
  | null => exact absurd h (by simp [repliesItemsOf])
  | bool b => exact absurd h (by simp [repliesItemsOf])
  | num n => exact absurd h (by simp [repliesItemsOf])
  | str s => exact absurd h (by simp [repliesItemsOf])
  | arr ys => exact absurd h (by simp [repliesItemsOf])

/-- C1 (amended): for every existing and incoming activity body whose reply
items all carry (string) ids, the merged replies collection is computed as a
map keyed by item id that is seeded with the INCOMING body's items and then
overwritten by the EXISTING body's items of the same id (so on an id collision
the previously stored item wins, and the collision adds no extra entry), the
result is ordered strictly ascending by id, and the collection's `totalItems`
field is recomputed to equal the number of items in the merged collection.
Per id, the merged collection holds the last existing item with that id when
one exists, else the last incoming item with that id. -/
theorem post_merge_replies_characterization
    (new_activity existing_activity : Json)
    (newItems exItems : List Json) (nks eks : List (String × Json))
    (hnew : repliesItemsOf new_activity = some newItems)
    (hex : repliesItemsOf existing_activity = some exItems)
    (hkn : keyItems newItems = some nks)
    (hke : keyItems exItems = some eks) :
    ∃ merged : Json,
      postMergeReplies new_activity existing_activity = some merged ∧
      repliesItemsOf merged = some (mergedItems nks eks) ∧
      repliesTotalOf merged = some (.num (mergedItems nks eks).length) ∧
      (∀ s : String,
        (mergedItems nks eks).find? (fun o => itemId o == some s)
          = ((exItems.reverse.find? (fun o => itemId o == some s)).or
             (newItems.reverse.find? (fun o => itemId o == some s)))) ∧
      keyItems (mergedItems nks eks) = some (mergedPairs nks eks) ∧
      (mergedPairs nks eks).Pairwise pairKeyLt := by
  obtain ⟨kvs, hkvs⟩ := repliesItemsOf_obj_shape hnew
  subst hkvs
  obtain ⟨kvs1, okvs1, rkvs, hdec⟩ := postMergeReplies_decomp hnew
  have hmerge : merge_by_id newItems exItems = some (mergedItems nks eks) := by
    unfold merge_by_id
    rw [hkn, hke]
    rfl
  have hpost : postMergeReplies (.obj kvs) existing_activity
      = some (postAssemble kvs1 okvs1
          (dictInsert rkvs "items" (.arr (mergedItems nks eks)))) := by
    rw [hdec existing_activity exItems hex, hmerge]
    rfl
  rw [postAssemble_eq] at hpost
  have hlk := assembleMerged_lookups kvs1 okvs1
    (dictInsert rkvs "items" (.arr (mergedItems nks eks))) (mergedItems nks eks)
    (dictGet_dictInsert_self _ _ _)
  obtain ⟨hspec1, hspec2, hspec3⟩ := mergedItems_spec hkn hke
  exact ⟨_, hpost, hlk.1, hlk.2, hspec1, hspec2, hspec3⟩

/-- Witness for C1's amended theorem: incoming body with reply id "2", existing
body with reply id "1". -/
theorem post_merge_replies_characterization_witness :
    repliesItemsOf (Json.obj [("object", .obj [("replies", .obj [("items",
        .arr [.obj [("id", .str "2"), ("content", .str "b")]])])])])
      = some [.obj [("id", .str "2"), ("content", .str "b")]] ∧
    repliesItemsOf (Json.obj [("object", .obj [("replies", .obj [("items",
        .arr [.obj [("id", .str "1"), ("content", .str "a")]])])])])
      = some [.obj [("id", .str "1"), ("content", .str "a")]] ∧
    keyItems [Json.obj [("id", .str "2"), ("content", .str "b")]]
      = some [("2", .obj [("id", .str "2"), ("content", .str "b")])] ∧
    keyItems [Json.obj [("id", .str "1"), ("content", .str "a")]]
      = some [("1", .obj [("id", .str "1"), ("content", .str "a")])] ∧
    (∃ merged : Json,
      postMergeReplies
          (Json.obj [("object", .obj [("replies", .obj [("items",
            .arr [.obj [("id", .str "2"), ("content", .str "b")]])])])])
          (Json.obj [("object", .obj [("replies", .obj [("items",
            .arr [.obj [("id", .str "1"), ("content", .str "a")]])])])])
        = some merged ∧
      repliesItemsOf merged
        = some (mergedItems [("2", .obj [("id", .str "2"), ("content", .str "b")])]
            [("1", .obj [("id", .str "1"), ("content", .str "a")])]) ∧
      repliesTotalOf merged
        = some (.num (mergedItems [("2", .obj [("id", .str "2"), ("content", .str "b")])]
            [("1", .obj [("id", .str "1"), ("content", .str "a")])]).length) ∧
      (∀ s : String,
        (mergedItems [("2", .obj [("id", .str "2"), ("content", .str "b")])]
            [("1", .obj [("id", .str "1"), ("content", .str "a")])]).find?
              (fun o => itemId o == some s)
          = ((([Json.obj [("id", .str "1"), ("content", .str "a")]]).reverse.find?
                (fun o => itemId o == some s)).or
             (([Json.obj [("id", .str "2"), ("content", .str "b")]]).reverse.find?
                (fun o => itemId o == some s)))) ∧
      keyItems (mergedItems [("2", .obj [("id", .str "2"), ("content", .str "b")])]
          [("1", .obj [("id", .str "1"), ("content", .str "a")])])
        = some (mergedPairs [("2", .obj [("id", .str "2"), ("content", .str "b")])]
            [("1", .obj [("id", .str "1"), ("content", .str "a")])]) ∧
      (mergedPairs [("2", .obj [("id", .str "2"), ("content", .str "b")])]
          [("1", .obj [("id", .str "1"), ("content", .str "a")])]).Pairwise pairKeyLt) :=
  ⟨by decide, by decide, by decide, by decide,
   post_merge_replies_characterization
     (Json.obj [("object", .obj [("replies", .obj [("items",
       .arr [.obj [("id", .str "2"), ("content", .str "b")]])])])])
     (Json.obj [("object", .obj [("replies", .obj [("items",
       .arr [.obj [("id", .str "1"), ("content", .str "a")]])])])])
     [.obj [("id", .str "2"), ("content", .str "b")]]
     [.obj [("id", .str "1"), ("content", .str "a")]]
     [("2", .obj [("id", .str "2"), ("content", .str "b")])]
     [("1", .obj [("id", .str "1"), ("content", .str "a")])]
     (by decide) (by decide) (by decide) (by decide)⟩

/-- Counterexample for C1 as stated: both bodies carry reply id "1" with
different content.  The claim predicts the incoming item ("b") wins the
collision; the code keeps the EXISTING item ("a"): at the call site the freshly
scraped items seed the map and the stored activity's items overwrite them
(`gr_source.merge_by_id(replies, 'items', existing items)`). -/
theorem post_merge_incoming_loses_counterexample :
    ((postMergeReplies
        (Json.obj [("id", .str "tag:x"), ("object", .obj [("replies", .obj [("items",
          .arr [.obj [("id", .str "1"), ("content", .str "b")]])])])])
        (Json.obj [("id", .str "tag:x"), ("object", .obj [("replies", .obj [("items",
          .arr [.obj [("id", .str "1"), ("content", .str "a")]])])])])).bind
      repliesItemsOf)
      = some [Json.obj [("id", .str "1"), ("content", .str "a")]] ∧
    (Json.obj [("id", .str "1"), ("content", .str "a")] : Json)
      ≠ Json.obj [("id", .str "1"), ("content", .str "b")] := by
  constructor
  · decide
  · decide

/-! ## PostHandler activity update (src/browser.py lines 281-308) -/

/-- Modelled from the spec: `models.Activity` persisted layout
(`Activity{id, account_ref, activity_json, updated}`); only the fields the
PostHandler reads and writes are carried, and the body is stored as the parsed
`Json` value. -/
structure ActivityEnt where
  source : String
  activity_json : Json
deriving DecidableEq

abbrev ActivityStore := List (String × ActivityEnt)

inductive PostErr where
  | missingId
  | mergeError
deriving DecidableEq, Repr

/-- `id = new_activity.get('id')` with Python falsiness (`if not id` also
rejects an empty id). -/
def activityIdOf (a : Json) : Option String :=
  match a with
  | .obj kvs =>
    match dictGet kvs "id" with
    | some (.str s) => if s = "" then none else some s
    | _ => none
  | _ => none

/-- The transactional body of `PostHandler.post` (src/browser.py lines 281-308)
after authorization: look up the Activity by the scraped id; if one exists,
store the record with the MERGED body but output the UNMERGED freshly scraped
activity (`self.output(new_activity)`, line 306); if none exists, store and
output the scraped activity.  Returns `(updated store, response JSON)`. -/
def postUpdateActivity (store : ActivityStore) (sourceKey : String)
    (new_activity : Json) : Except (Nat × PostErr) (ActivityStore × Json) :=
  match activityIdOf new_activity with
  | none => .error (400, .missingId)
  | some id =>
    match storeGet store id with
    | some act =>
      match postMergeReplies new_activity act.activity_json with
      | none => .error (500, .mergeError)
      | some merged =>
        .ok (storePut store id { act with activity_json := merged }, new_activity)
    | none =>
      .ok (storePut store id { source := sourceKey, activity_json := new_activity },
        new_activity)

/-- C2 (amended): for every request to the browser post endpoint that passes
authorization, when a stored Activity with the same id already exists, the
response body is the UNMERGED freshly scraped activity
(`self.output(new_activity)`), while the stored record is updated to the merged
body; the merged activity is only persisted, not returned. -/
theorem post_response_is_unmerged_scrape
    (store : ActivityStore) (srcKey id : String) (new_activity merged : Json)
    (act : ActivityEnt)
    (hid : activityIdOf new_activity = some id)
    (hact : storeGet store id = some act)
    (hm : postMergeReplies new_activity act.activity_json = some merged) :
    postUpdateActivity store srcKey new_activity
      = .ok (storePut store id { act with activity_json := merged }, new_activity) ∧
    storeGet (storePut store id { act with activity_json := merged }) id
      = some { act with activity_json := merged } := by
  constructor
  · simp only [postUpdateActivity, hid, hact, hm]
  · exact storeGet_put_self _ _ _

/-- Witness for C2's amended theorem at a concrete store: the stored activity
has one reply, the fresh scrape has none; the response is the scrape, the store
gets the merged body. -/
theorem post_response_is_unmerged_scrape_witness :
    activityIdOf (Json.obj [("id", .str "tag:x")]) = some "tag:x" ∧
    storeGet [("tag:x", ActivityEnt.mk "alice"
        (Json.obj [("id", .str "tag:x"), ("object", .obj [("replies", .obj [("items",
          .arr [.obj [("id", .str "1"), ("content", .str "a")]])])])]))] "tag:x"
      = some (ActivityEnt.mk "alice"
          (Json.obj [("id", .str "tag:x"), ("object", .obj [("replies", .obj [("items",
            .arr [.obj [("id", .str "1"), ("content", .str "a")]])])])])) ∧
    postMergeReplies (Json.obj [("id", .str "tag:x")])
        (Json.obj [("id", .str "tag:x"), ("object", .obj [("replies", .obj [("items",
          .arr [.obj [("id", .str "1"), ("content", .str "a")]])])])])
      = some (Json.obj [("id", .str "tag:x"), ("object", .obj [("replies", .obj [("items",
          .arr [.obj [("id", .str "1"), ("content", .str "a")]]),
          ("totalItems", .num 1)])])]) ∧
    postUpdateActivity
        [("tag:x", ActivityEnt.mk "alice"
          (Json.obj [("id", .str "tag:x"), ("object", .obj [("replies", .obj [("items",
            .arr [.obj [("id", .str "1"), ("content", .str "a")]])])])]))]
        "alice" (Json.obj [("id", .str "tag:x")])
      = .ok (storePut
          [("tag:x", ActivityEnt.mk "alice"
            (Json.obj [("id", .str "tag:x"), ("object", .obj [("replies", .obj [("items",
              .arr [.obj [("id", .str "1"), ("content", .str "a")]])])])]))]
          "tag:x"
          (ActivityEnt.mk "alice"
            (Json.obj [("id", .str "tag:x"), ("object", .obj [("replies", .obj [("items",
              .arr [.obj [("id", .str "1"), ("content", .str "a")]]),
              ("totalItems", .num 1)])])])),
          Json.obj [("id", .str "tag:x")]) :=
  ⟨by decide, by decide, by decide,
   (post_response_is_unmerged_scrape
     [("tag:x", ActivityEnt.mk "alice"
       (Json.obj [("id", .str "tag:x"), ("object", .obj [("replies", .obj [("items",
         .arr [.obj [("id", .str "1"), ("content", .str "a")]])])])]))]
     "alice" "tag:x" (Json.obj [("id", .str "tag:x")])
     (Json.obj [("id", .str "tag:x"), ("object", .obj [("replies", .obj [("items",
       .arr [.obj [("id", .str "1"), ("content", .str "a")]]),
       ("totalItems", .num 1)])])])
     (ActivityEnt.mk "alice"
       (Json.obj [("id", .str "tag:x"), ("object", .obj [("replies", .obj [("items",
         .arr [.obj [("id", .str "1"), ("content", .str "a")]])])])]))
     (by decide) (by decide) (by decide)).1⟩

/-- Counterexample for C2 as stated: with a stored activity holding one reply
and a fresh scrape holding none, the handler's response is the fresh scrape
itself while the stored record holds the (different) merged body - the response
is NOT the merged activity JSON. -/
theorem post_response_not_merged_counterexample :
    ((postUpdateActivity
        [("tag:x", ActivityEnt.mk "alice"
          (Json.obj [("id", .str "tag:x"), ("object", .obj [("replies", .obj [("items",
            .arr [.obj [("id", .str "1"), ("content", .str "a")]])])])]))]
        "alice" (Json.obj [("id", .str "tag:x")])).toOption.map Prod.snd)
      = some (Json.obj [("id", .str "tag:x")]) ∧
    (((postUpdateActivity
        [("tag:x", ActivityEnt.mk "alice"
          (Json.obj [("id", .str "tag:x"), ("object", .obj [("replies", .obj [("items",
            .arr [.obj [("id", .str "1"), ("content", .str "a")]])])])]))]
        "alice" (Json.obj [("id", .str "tag:x")])).toOption.bind
          (fun r => storeGet r.1 "tag:x")).map ActivityEnt.activity_json)
      ≠ some (Json.obj [("id", .str "tag:x")]) := by
  constructor
  · decide
  · decide


/-! ## Source lifecycle (src/util.py, Handler.maybe_add_or_delete_source, lines 299-376)

The handler decodes the OAuth `state` parameter (see the state-parameter
section) into a flat string-valued dict and dispatches on `operation`.  The
pieces living outside src/ are parameters of the model:
* `source_cls.create_new` (models.py, not under src/),
* `bridgy_path` / `label_name` / `bridgy_url` / `key.urlsafe()` on entities,
* `util.add_query_params` (oauth_dropins webutil),
* `source_cls.GR_CLASS.NAME` (granary).
`self.messages` is modelled as a list; `redirect_home_or_user_page` splits the
raw state string on the first '-' and resolves the urlsafe key. -/

structure LoginRecS where
  path : String
  site : String
  name : String
deriving DecidableEq, Repr

inductive RedirectTarget where
  | home
  | toUrl (u : String)
  | externalCallback (u : String)
  | deleteFinish (authKey : String) (state : String)
deriving DecidableEq, Repr

/-- Everything `maybe_add_or_delete_source` observes about its outside world. -/
structure LifecyclePlatform (Auth Src Store : Type) where
  createNew : Store → Auth → List String → Option String → Store × Option Src
  bridgyPath : Src → String
  shortName : String
  labelName : Src → String
  bridgyUrl : Src → String
  keyUrlsafe : Src → String
  authKeyUrlsafe : Auth → String
  addQueryParams : String → List (String × String) → String
  grName : String
  sourceFromUrlsafe : Store → String → Option Src

/-- The observable outcome of one `maybe_add_or_delete_source` call: the store
afterwards, the handler messages, which cached pages were invalidated, the
logins-cookie write if any, the redirect, and the returned source. -/
structure LifecycleResult (Src Store : Type) where
  store : Store
  messages : List String
  invalidated : List String
  loginsSet : Option (List LoginRecS)
  redirect : RedirectTarget
  returned : Option Src

def declinedMsg : String := "OK, you're not signed up. Hope you reconsider!"

def stateGet (st : List (String × String)) (k : String) : Option String :=
  (st.find? (fun p => p.1 == k)).map (fun x => x.2)

/-- `Handler.redirect_home_or_user_page` (src/util.py lines 472-479). -/
def redirectHomeOrUserPage {Auth Src Store : Type}
    (P : LifecyclePlatform Auth Src Store) (store : Store) (state : String) :
    RedirectTarget :=
  match state.splitOn "-" with
  | [] => .home
  | [_] => .home
  | _ :: rest =>
    match P.sourceFromUrlsafe store (String.intercalate "-" rest) with
    | some src => .toUrl (P.bridgyUrl src)
    | none => .home

/-- `Handler.maybe_add_or_delete_source` (src/util.py lines 299-376), taking the
decoded state dict (`decode_state_parameter`) plus the raw state string (used
only by the delete-declined redirect). -/
def maybe_add_or_delete_source {Auth Src Store : Type}
    (P : LifecyclePlatform Auth Src Store)
    (stateRaw : String) (stateObj : List (String × String))
    (auth_entity : Option Auth)
    (msgs : List String) (logins : List LoginRecS)
    (store : Store) : LifecycleResult Src Store :=
  let operation := (stateGet stateObj "operation").getD "add"
  let feature := (stateGet stateObj "feature").getD ""
  let callback := (stateGet stateObj "callback").getD ""
  let user_url := stateGet stateObj "user_url"
  if operation = "add" then
    match auth_entity with
    | none =>
      { store := store
        messages := if msgs.isEmpty then [declinedMsg] else msgs
        invalidated := []
        loginsSet := none
        redirect :=
          if callback ≠ "" then
            .externalCallback (P.addQueryParams callback [("result", "declined")])
          else .home
        returned := none }
    | some auth =>
      let cn := P.createNew store auth
        (if feature ≠ "" then feature.splitOn "," else []) user_url
      match cn.2 with
      | some source =>
        { store := cn.1
          messages := msgs
          invalidated := ["/users"]
          loginsSet := some (logins ++
            [⟨P.bridgyPath source, P.shortName, P.labelName source⟩])
          redirect :=
            if callback ≠ "" then
              .externalCallback (P.addQueryParams callback
                [("result", "success"), ("user", P.bridgyUrl source),
                 ("key", P.keyUrlsafe source)])
            else .toUrl (P.bridgyUrl source)
          returned := some source }
      | none =>
        { store := cn.1
          messages := msgs
          invalidated := ["/users"]
          loginsSet := none
          redirect :=
            if callback ≠ "" then
              .externalCallback (P.addQueryParams callback [("result", "failure")])
            else .home
          returned := none }
  else
    match auth_entity with
    | some auth =>
      { store := store
        messages := msgs
        invalidated := []
        loginsSet := none
        redirect := .deleteFinish (P.authKeyUrlsafe auth) stateRaw
        returned := none }
    | none =>
      { store := store
        messages := msgs ++
          ["If you want to disable, please approve the " ++ P.grName ++ " prompt."]
        invalidated := []
        loginsSet := none
        redirect := redirectHomeOrUserPage P store stateRaw
        returned := none }

/-- C7: for every `add` transition where no external authorization was obtained
(the auth entity is absent), the handler mutates no store state - no Account is
created or updated, no cache entry invalidated, no login cookie appended -
emits a user-visible message, and redirects to the descriptor's callback URL
with `result=declined` when a callback was supplied, else to the home page. -/
theorem add_declined_no_mutation {Auth Src Store : Type}
    (P : LifecyclePlatform Auth Src Store)
    (stateRaw : String) (stateObj : List (String × String))
    (msgs : List String) (logins : List LoginRecS) (store : Store)
    (hop : (stateGet stateObj "operation").getD "add" = "add") :
    (maybe_add_or_delete_source P stateRaw stateObj none msgs logins store).store
        = store ∧
    (maybe_add_or_delete_source P stateRaw stateObj none msgs logins store).invalidated
        = [] ∧
    (maybe_add_or_delete_source P stateRaw stateObj none msgs logins store).loginsSet
        = none ∧
    (maybe_add_or_delete_source P stateRaw stateObj none msgs logins store).returned
        = none ∧
    (maybe_add_or_delete_source P stateRaw stateObj none msgs logins store).messages
        ≠ [] ∧
    ((stateGet stateObj "callback").getD "" ≠ "" →
      (maybe_add_or_delete_source P stateRaw stateObj none msgs logins store).redirect
        = .externalCallback (P.addQueryParams ((stateGet stateObj "callback").getD "")
            [("result", "declined")])) ∧
    ((stateGet stateObj "callback").getD "" = "" →
      (maybe_add_or_delete_source P stateRaw stateObj none msgs logins store).redirect
        = .home) := by
  unfold maybe_add_or_delete_source
  rw [hop]
  simp only [if_pos rfl]
  refine ⟨rfl, rfl, rfl, rfl, ?_, ?_, ?_⟩
  · cases msgs with
    | nil => simp [declinedMsg]
    | cons m ms => simp
  · intro hcb
    simp [hcb]
  · intro hcb
    simp [hcb]

/-- Witness for C7 with a concrete descriptor carrying a callback, and with an
empty message list, over trivial platform instantiations. -/
theorem add_declined_no_mutation_witness :
    ((stateGet [("operation", "add"), ("callback", "https://cb.example/done")]
        "operation").getD "add" = "add") ∧
    ((maybe_add_or_delete_source
        { createNew := fun st _ _ _ => (st, none)
          bridgyPath := fun _ => ""
          shortName := "twitter"
          labelName := fun _ => ""
          bridgyUrl := fun _ => ""
          keyUrlsafe := fun _ => ""
          authKeyUrlsafe := fun _ => ""
          addQueryParams := fun u ps => u ++ "?" ++ String.intercalate "&"
            (ps.map (fun p => p.1 ++ "=" ++ p.2))
          grName := "Twitter"
          sourceFromUrlsafe := fun _ _ => none
          : LifecyclePlatform Unit Unit Unit }
        "add-xyz" [("operation", "add"), ("callback", "https://cb.example/done")]
        none [] [] ()).store = () ∧
      (maybe_add_or_delete_source
        { createNew := fun st _ _ _ => (st, none)
          bridgyPath := fun _ => ""
          shortName := "twitter"
          labelName := fun _ => ""
          bridgyUrl := fun _ => ""
          keyUrlsafe := fun _ => ""
          authKeyUrlsafe := fun _ => ""
          addQueryParams := fun u ps => u ++ "?" ++ String.intercalate "&"
            (ps.map (fun p => p.1 ++ "=" ++ p.2))
          grName := "Twitter"
          sourceFromUrlsafe := fun _ _ => none
          : LifecyclePlatform Unit Unit Unit }
        "add-xyz" [("operation", "add"), ("callback", "https://cb.example/done")]
        none [] [] ()).loginsSet = none) :=
  ⟨by decide,
   by
    have h := add_declined_no_mutation
      ({ createNew := fun st _ _ _ => (st, none)
         bridgyPath := fun _ => ""
         shortName := "twitter"
         labelName := fun _ => ""
         bridgyUrl := fun _ => ""
         keyUrlsafe := fun _ => ""
         authKeyUrlsafe := fun _ => ""
         addQueryParams := fun u ps => u ++ "?" ++ String.intercalate "&"
           (ps.map (fun p => p.1 ++ "=" ++ p.2))
         grName := "Twitter"
         sourceFromUrlsafe := fun _ _ => none
         : LifecyclePlatform Unit Unit Unit })
      "add-xyz" [("operation", "add"), ("callback", "https://cb.example/done")]
      [] [] () (by decide)
    exact ⟨h.1, h.2.2.1⟩⟩


/-! ## OAuth state parameter (src/util.py lines 378-431)

`encode_state_parameter(obj)` is
`json.dumps(trim_nulls(obj), separators=(',', ':'), sort_keys=True)`;
`decode_state_parameter(state)` is `json.loads(state) if state else {}`, with
`None` returned for a non-dict.  The external pieces:
* `trim_nulls` (oauth_dropins webutil, not under src/) is modelled below:
  it recursively removes dict entries (and, for lists whose elements are all
  dicts, list elements) whose trimmed value is None/''/{}/[];
* `json.dumps` with compact separators and sorted keys is modelled by
  `jsonDumps0` over recursively key-sorted values (`sortJson`); escaping
  follows the ensure_ascii default for the basic-plane characters;
* `json.loads` is the `loads` parameter of the decoder; the round-trip theorem
  assumes only that it inverts the encoder at the one encoded string. -/

def isNullish : Json → Bool
  | .null => true
  | .str "" => true
  | .arr [] => true
  | .obj [] => true
  | _ => false

def isObjJson : Json → Bool
  | .obj _ => true
  | _ => false

mutual

def trimNulls : Json → Json
  | .null => .null
  | .bool b => .bool b
  | .num n => .num n
  | .str s => .str s
  | .arr xs => if xs.all isObjJson then .arr (trimArr xs) else .arr xs
  | .obj kvs => .obj (trimObj kvs)

def trimArr : List Json → List Json
  | [] => []
  | x :: xs =>
    if isNullish (trimNulls x) then trimArr xs else trimNulls x :: trimArr xs

def trimObj : List (String × Json) → List (String × Json)
  | [] => []
  | (k, v) :: kvs =>
    if isNullish (trimNulls v) then trimObj kvs else (k, trimNulls v) :: trimObj kvs

end

mutual

def sortJson : Json → Json
  | .null => .null
  | .bool b => .bool b
  | .num n => .num n
  | .str s => .str s
  | .arr xs => .arr (sortJsonArr xs)
  | .obj kvs => .obj (sortPairsByKey (sortJsonKVs kvs))

def sortJsonArr : List Json → List Json
  | [] => []
  | x :: xs => sortJson x :: sortJsonArr xs

def sortJsonKVs : List (String × Json) → List (String × Json)
  | [] => []
  | (k, v) :: kvs => (k, sortJson v) :: sortJsonKVs kvs

end

def hexDigitLower (n : Nat) : Char :=
  if n < 10 then Char.ofNat (48 + n) else Char.ofNat (87 + n)

/-- JSON string escaping as `json.dumps` performs it (ensure_ascii): quote,
backslash and the common controls get two-character escapes, other controls and
non-ASCII basic-plane characters become `\uXXXX`. -/
def escapeChar (c : Char) : List Char :=
  if c = '"' then ['\\', '"']
  else if c = '\\' then ['\\', '\\']
  else if c = '\n' then ['\\', 'n']
  else if c = '\t' then ['\\', 't']
  else if c = '\r' then ['\\', 'r']
  else if c.toNat < 32 || c.toNat > 126 then
    ['\\', 'u', hexDigitLower (c.toNat / 4096 % 16), hexDigitLower (c.toNat / 256 % 16),
     hexDigitLower (c.toNat / 16 % 16), hexDigitLower (c.toNat % 16)]
  else [c]

def jsonQuote (s : String) : String :=
  String.mk ('"' :: s.toList.foldr (fun c acc => escapeChar c ++ acc) ['"'])

mutual

def jsonDumps0 : Json → String
  | .null => "null"
  | .bool true => "true"
  | .bool false => "false"
  | .num n => toString n
  | .str s => jsonQuote s
  | .arr xs => "[" ++ dumpsArr xs ++ "]"
  | .obj kvs => "\x7b" ++ dumpsObj kvs ++ "\x7d"

def dumpsArr : List Json → String
  | [] => ""
  | [x] => jsonDumps0 x
  | x :: y :: xs => jsonDumps0 x ++ "," ++ dumpsArr (y :: xs)

def dumpsObj : List (String × Json) → String
  | [] => ""
  | [(k, v)] => jsonQuote k ++ ":" ++ jsonDumps0 v
  | (k, v) :: q :: kvs => jsonQuote k ++ ":" ++ jsonDumps0 v ++ "," ++ dumpsObj (q :: kvs)

end

/-- `Handler.encode_state_parameter` (src/util.py lines 392-411):
`json.dumps(trim_nulls(obj), separators=(',', ':'), sort_keys=True)`. -/
def encode_state_parameter (obj : Json) : String :=
  jsonDumps0 (sortJson (trimNulls obj))

/-- `Handler.decode_state_parameter` (src/util.py lines 413-431); `none` covers
both a `json.loads` ValueError and the non-dict `return None`. -/
def decode_state_parameter (loads : String → Option Json) (state : String) :
    Option Json :=
  if state = "" then some (.obj [])
  else
    match loads state with
    | some (.obj kvs) => some (.obj kvs)
    | _ => none

theorem isObj_trimNulls {j : Json} (h : isObjJson j = true) :
    isObjJson (trimNulls j) = true := by
  cases j with
  | obj kvs => simp [trimNulls, isObjJson]
  | null => exact absurd h (by simp [isObjJson])
  | bool b => exact absurd h (by simp [isObjJson])
  | num n => exact absurd h (by simp [isObjJson])
  | str s => exact absurd h (by simp [isObjJson])
  | arr xs => exact absurd h (by simp [isObjJson])

theorem trimArr_eq_filter (xs : List Json) :
    trimArr xs = (xs.map trimNulls).filter (fun y => !isNullish y) := by
  induction xs with
  | nil => rfl
  | cons x xs ih =>
    simp only [trimArr, List.map_cons, List.filter_cons]
    cases h : isNullish (trimNulls x) with
    | true => simp [h, ih]
    | false => simp [h, ih]

theorem trimObj_eq_filter (kvs : List (String × Json)) :
    trimObj kvs = (kvs.map (fun p => (p.1, trimNulls p.2))).filter
      (fun p => !isNullish p.2) := by
  induction kvs with
  | nil => rfl
  | cons p kvs ih =>
    obtain ⟨k, v⟩ := p
    simp only [trimObj, List.map_cons, List.filter_cons]
    cases h : isNullish (trimNulls v) with
    | true => simp [h, ih]
    | false => simp [h, ih]

theorem trimArr_idem_of (ys : List Json)
    (ihy : ∀ y ∈ ys, trimNulls (trimNulls y) = trimNulls y) :
    trimArr (trimArr ys) = trimArr ys := by
  induction ys with
  | nil => rfl
  | cons y ys ihys =>
    simp only [trimArr]
    by_cases hy : isNullish (trimNulls y) = true
    · rw [if_pos hy]
      exact ihys (fun z hz => ihy z (List.mem_cons_of_mem _ hz))
    · rw [if_neg hy]
      simp only [trimArr]
      rw [ihy y (by simp)]
      rw [if_neg hy]
      rw [ihys (fun z hz => ihy z (List.mem_cons_of_mem _ hz))]

theorem trimObj_idem_of (kvs : List (String × Json))
    (ihy : ∀ p ∈ kvs, trimNulls (trimNulls p.2) = trimNulls p.2) :
    trimObj (trimObj kvs) = trimObj kvs := by
  induction kvs with
  | nil => rfl
  | cons p kvs ihps =>
    obtain ⟨k, v⟩ := p
    simp only [trimObj]
    by_cases hv : isNullish (trimNulls v) = true
    · rw [if_pos hv]
      exact ihps (fun q hq => ihy q (List.mem_cons_of_mem _ hq))
    · rw [if_neg hv]
      simp only [trimObj]
      rw [ihy (k, v) (by simp)]
      rw [if_neg hv]
      rw [ihps (fun q hq => ihy q (List.mem_cons_of_mem _ hq))]

/-- `trim_nulls` is idempotent: a trimmed value contains no further removable
entries (removal happens bottom-up). -/
theorem trimNulls_idem : ∀ j : Json, trimNulls (trimNulls j) = trimNulls j := by
  intro j
  induction j using json_ind with
  | hnull => rfl
  | hbool b => rfl
  | hnum n => rfl
  | hstr s => rfl
  | harr xs ih =>
    show trimNulls (trimNulls (.arr xs)) = trimNulls (.arr xs)
    by_cases hall : xs.all isObjJson = true
    · rw [show trimNulls (.arr xs) = .arr (trimArr xs) from by
        simp only [trimNulls]
        rw [if_pos hall]]
      have hall2 : (trimArr xs).all isObjJson = true := by
        rw [List.all_eq_true] at hall ⊢
        intro y hy
        rw [trimArr_eq_filter] at hy
        obtain ⟨hy1, hy2⟩ := List.mem_filter.1 hy
        obtain ⟨x, hx, hxy⟩ := List.mem_map.1 hy1
        rw [← hxy]
        exact isObj_trimNulls (hall x hx)
      rw [show trimNulls (.arr (trimArr xs)) = .arr (trimArr (trimArr xs)) from by
        simp only [trimNulls]
        rw [if_pos hall2]]
      rw [trimArr_idem_of xs ih]
    · rw [show trimNulls (.arr xs) = .arr xs from by
        simp only [trimNulls]
        rw [if_neg hall]]
      rw [show trimNulls (.arr xs) = .arr xs from by
        simp only [trimNulls]
        rw [if_neg hall]]
  | hobj kvs ih =>
    show trimNulls (trimNulls (.obj kvs)) = trimNulls (.obj kvs)
    rw [show trimNulls (.obj kvs) = .obj (trimObj kvs) from by simp only [trimNulls]]
    rw [show trimNulls (.obj (trimObj kvs)) = .obj (trimObj (trimObj kvs)) from by
      simp only [trimNulls]]
    rw [trimObj_idem_of kvs ih]

theorem sortJsonKVs_eq_map (kvs : List (String × Json)) :
    sortJsonKVs kvs = kvs.map (fun p => (p.1, sortJson p.2)) := by
  induction kvs with
  | nil => rfl
  | cons p kvs ih =>
    obtain ⟨k, v⟩ := p
    simp only [sortJsonKVs, List.map_cons, ih]

/-- Two permutations of the same pair list with strictly ascending keys are
equal. -/
theorem strict_sorted_perm_eq : ∀ {l1 l2 : List (String × Json)},
    List.Perm l1 l2 → l1.Pairwise pairKeyLt → l2.Pairwise pairKeyLt → l1 = l2 := by
  intro l1
  induction l1 with
  | nil =>
    intro l2 hp _ _
    exact List.Perm.nil_eq hp
  | cons a t1 ih =>
    intro l2 hp h1 h2
    cases l2 with
    | nil => exact absurd (List.perm_nil.1 hp) (by simp)
    | cons b t2 =>
      have hab : a = b := by
        by_contra hne
        have ha2 : a ∈ b :: t2 := hp.mem_iff.1 (by simp)
        have hb1 : b ∈ a :: t1 := hp.mem_iff.2 (by simp)
        rcases List.mem_cons.1 ha2 with h | h
        · exact hne h
        · rcases List.mem_cons.1 hb1 with h3 | h3
          · exact hne h3.symm
          · have hba : pairKeyLt b a := (List.pairwise_cons.1 h2).1 a h
            have hab2 : pairKeyLt a b := (List.pairwise_cons.1 h1).1 b h3
            unfold pairKeyLt at hba hab2
            rw [strLtB_asymm _ _ hab2] at hba
            exact absurd hba (by simp)
      subst hab
      have hperm2 : List.Perm t1 t2 := (List.perm_cons a).1 hp
      rw [ih hperm2 (List.pairwise_cons.1 h1).2 (List.pairwise_cons.1 h2).2]

theorem sortPairsByKey_eq_of_perm {l l2 : List (String × Json)}
    (h : List.Perm l l2) (hn : (l.map Prod.fst).Nodup) :
    sortPairsByKey l = sortPairsByKey l2 := by
  have hn2 : (l2.map Prod.fst).Nodup := ((h.map Prod.fst).nodup_iff).1 hn
  apply strict_sorted_perm_eq
  · exact (perm_sortPairsByKey l).trans (h.trans (perm_sortPairsByKey l2).symm)
  · exact strict_of_le_of_ne_keys (pairwise_sortPairsByKey l)
      (((perm_sortPairsByKey l).map Prod.fst).nodup_iff.2 hn)
  · exact strict_of_le_of_ne_keys (pairwise_sortPairsByKey l2)
      (((perm_sortPairsByKey l2).map Prod.fst).nodup_iff.2 hn2)

theorem encode_obj_ne_empty (kvs : List (String × Json)) :
    encode_state_parameter (.obj kvs) ≠ "" := by
  unfold encode_state_parameter
  rw [show trimNulls (.obj kvs) = .obj (trimObj kvs) from by simp only [trimNulls]]
  rw [show sortJson (.obj (trimObj kvs))
      = .obj (sortPairsByKey (sortJsonKVs (trimObj kvs))) from by simp only [sortJson]]
  intro h
  have h48 := congrArg String.length h
  rw [show jsonDumps0 (.obj (sortPairsByKey (sortJsonKVs (trimObj kvs))))
      = "\x7b" ++ dumpsObj (sortPairsByKey (sortJsonKVs (trimObj kvs))) ++ "\x7d" from by
    simp only [jsonDumps0]] at h48
  rw [String.length_append, String.length_append,
    show ("\x7b" : String).length = 1 from rfl,
    show ("\x7d" : String).length = 1 from rfl,
    show ("" : String).length = 0 from rfl] at h48
  omega

/-- C6: for every operation-descriptor dict, including dicts carrying
unknown/extra fields, encoding the state parameter is deterministic with stable
(sorted) key ordering - permuting the dict's insertion order does not change
the encoded bytes - and, provided `json.loads` inverts the encoder on the
encoded string (its documented behaviour), decoding yields exactly the trimmed
dict (unknown fields included) and re-encoding the decoded dict is
byte-for-byte identical to the original encoding:
`encode(decode(encode(d))) == encode(d)`. -/
theorem encode_state_parameter_roundtrip (loads : String → Option Json)
    (kvs kvs2 : List (String × Json))
    (hperm : List.Perm kvs kvs2)
    (hnodup : (kvs.map Prod.fst).Nodup)
    (hload : loads (encode_state_parameter (.obj kvs))
      = some (trimNulls (.obj kvs))) :
    encode_state_parameter (.obj kvs) = encode_state_parameter (.obj kvs2) ∧
    decode_state_parameter loads (encode_state_parameter (.obj kvs))
      = some (trimNulls (.obj kvs)) ∧
    encode_state_parameter (trimNulls (.obj kvs)) = encode_state_parameter (.obj kvs) := by
  refine ⟨?_, ?_, ?_⟩
  · unfold encode_state_parameter
    rw [show trimNulls (.obj kvs) = .obj (trimObj kvs) from by simp only [trimNulls]]
    rw [show trimNulls (.obj kvs2) = .obj (trimObj kvs2) from by simp only [trimNulls]]
    rw [show sortJson (.obj (trimObj kvs))
        = .obj (sortPairsByKey (sortJsonKVs (trimObj kvs))) from by simp only [sortJson]]
    rw [show sortJson (.obj (trimObj kvs2))
        = .obj (sortPairsByKey (sortJsonKVs (trimObj kvs2))) from by simp only [sortJson]]
    have hpermt : List.Perm (trimObj kvs) (trimObj kvs2) := by
      rw [trimObj_eq_filter, trimObj_eq_filter]
      exact (hperm.map (fun p => (p.1, trimNulls p.2))).filter _
    have hpermsk : List.Perm (sortJsonKVs (trimObj kvs)) (sortJsonKVs (trimObj kvs2)) := by
      rw [sortJsonKVs_eq_map, sortJsonKVs_eq_map]
      exact hpermt.map _
    have hkeys : ((sortJsonKVs (trimObj kvs)).map Prod.fst).Nodup := by
      rw [sortJsonKVs_eq_map]
      have h1 : ((trimObj kvs).map (fun p => (p.1, sortJson p.2))).map Prod.fst
          = (trimObj kvs).map Prod.fst := by
        rw [List.map_map]
        rfl
      rw [h1]
      have h2 : List.Sublist ((trimObj kvs).map Prod.fst) (kvs.map Prod.fst) := by
        rw [trimObj_eq_filter]
        have h3 := List.filter_sublist
          (l := kvs.map (fun p => (p.1, trimNulls p.2)))
          (p := fun p => !isNullish p.2)
        have h4 := h3.map Prod.fst
        rw [List.map_map] at h4
        exact h4
      exact List.Nodup.sublist h2 hnodup
    rw [sortPairsByKey_eq_of_perm hpermsk hkeys]
  · unfold decode_state_parameter
    rw [if_neg (encode_obj_ne_empty kvs), hload]
    rw [show trimNulls (.obj kvs) = .obj (trimObj kvs) from by simp only [trimNulls]]
  · unfold encode_state_parameter
    rw [trimNulls_idem]

/-- Witness for C6: a descriptor with unsorted keys, an unknown extra field and
an empty optional field, against a permuted insertion order, with a `loads`
oracle pinned at the single encoded string. -/
theorem encode_state_parameter_roundtrip_witness :
    List.Perm
      [("operation", Json.str "add"), ("feature", Json.str "listen"),
       ("unknown_extra", Json.str "kept"), ("user_url", Json.str "")]
      [("feature", Json.str "listen"), ("operation", Json.str "add"),
       ("user_url", Json.str ""), ("unknown_extra", Json.str "kept")] ∧
    (([("operation", Json.str "add"), ("feature", Json.str "listen"),
       ("unknown_extra", Json.str "kept"), ("user_url", Json.str "")]
        : List (String × Json)).map Prod.fst).Nodup ∧
    (encode_state_parameter
        (.obj [("operation", Json.str "add"), ("feature", Json.str "listen"),
          ("unknown_extra", Json.str "kept"), ("user_url", Json.str "")])
      = encode_state_parameter
        (.obj [("feature", Json.str "listen"), ("operation", Json.str "add"),
          ("user_url", Json.str ""), ("unknown_extra", Json.str "kept")]) ∧
    decode_state_parameter
        (fun _ => some (trimNulls (.obj [("operation", Json.str "add"),
          ("feature", Json.str "listen"), ("unknown_extra", Json.str "kept"),
          ("user_url", Json.str "")])))
        (encode_state_parameter
          (.obj [("operation", Json.str "add"), ("feature", Json.str "listen"),
            ("unknown_extra", Json.str "kept"), ("user_url", Json.str "")]))
      = some (trimNulls (.obj [("operation", Json.str "add"),
          ("feature", Json.str "listen"), ("unknown_extra", Json.str "kept"),
          ("user_url", Json.str "")])) ∧
    encode_state_parameter (trimNulls (.obj [("operation", Json.str "add"),
        ("feature", Json.str "listen"), ("unknown_extra", Json.str "kept"),
        ("user_url", Json.str "")]))
      = encode_state_parameter
        (.obj [("operation", Json.str "add"), ("feature", Json.str "listen"),
          ("unknown_extra", Json.str "kept"), ("user_url", Json.str "")])) :=
  ⟨by decide, by decide,
   encode_state_parameter_roundtrip
     (fun _ => some (trimNulls (.obj [("operation", Json.str "add"),
       ("feature", Json.str "listen"), ("unknown_extra", Json.str "kept"),
       ("user_url", Json.str "")])))
     [("operation", Json.str "add"), ("feature", Json.str "listen"),
      ("unknown_extra", Json.str "kept"), ("user_url", Json.str "")]
     [("feature", Json.str "listen"), ("operation", Json.str "add"),
      ("user_url", Json.str ""), ("unknown_extra", Json.str "kept")]
     (by decide) (by decide) rfl⟩


/-! ## Logins cookie (src/util.py, get_logins lines 433-452, set_logins lines 454-470)

`set_logins` writes `'|'.join(sorted(set('%s?%s' % (path, quote_plus(name)))))`
with cookie path `/` and a 2-year (730-day) expiry; `get_logins` unquotes the
WHOLE cookie value first and only then splits on `'|'` and `'?'`.
Python 2 byte strings are modelled as `List Char` at the byte level
(`urllib.quote_plus` / `unquote_plus` are stdlib externals; `unquote_plus`
first replaces every '+' with a space and then percent-decodes, resynchronizing
at each '%'; the multi-byte UTF-8 encoding of non-ASCII characters is not
modelled, so the round-trip theorem quantifies over ASCII names).  The Python
`set(...)` iterations are modelled by `List.dedup` (first occurrence kept); the
round-trip statement is membership-based, so the unspecified set iteration
order is immaterial. -/

def isSafeCh (c : Char) : Bool :=
  (48 ≤ c.toNat && c.toNat ≤ 57) || (65 ≤ c.toNat && c.toNat ≤ 90) ||
  (97 ≤ c.toNat && c.toNat ≤ 122) || c = '_' || c = '.' || c = '-'

def hexDigitUpper (n : Nat) : Char :=
  if n < 10 then Char.ofNat (48 + n) else Char.ofNat (55 + n)

/-- `urllib.quote_plus` on one byte: safe characters kept, space becomes '+',
everything else percent-encoded. -/
def quotePlusCh (c : Char) : List Char :=
  if isSafeCh c then [c]
  else if c = ' ' then ['+']
  else ['%', hexDigitUpper (c.toNat / 16 % 16), hexDigitUpper (c.toNat % 16)]

def quotePlus (s : List Char) : List Char :=
  s.foldr (fun c acc => quotePlusCh c ++ acc) []

def hexVal? (c : Char) : Option Nat :=
  if 48 ≤ c.toNat && c.toNat ≤ 57 then some (c.toNat - 48)
  else if 65 ≤ c.toNat && c.toNat ≤ 70 then some (c.toNat - 55)
  else if 97 ≤ c.toNat && c.toNat ≤ 102 then some (c.toNat - 87)
  else none

/-- The '+'-to-space pass of `unquote_plus`. -/
def plusToSpace (s : List Char) : List Char :=
  s.map (fun c => if c = '+' then ' ' else c)

/-- The percent-decoding pass: `%XX` becomes the byte, a malformed '%' is kept
literally. -/
def pctDecode : List Char → List Char
  | [] => []
  | c :: rest =>
    if c = '%' then
      let fallback := '%' :: pctDecode rest
      match rest with
      | h :: l :: rest2 =>
        match hexVal? h, hexVal? l with
        | some hv, some lv => Char.ofNat (16 * hv + lv) :: pctDecode rest2
        | _, _ => fallback
      | _ => fallback
    else c :: pctDecode rest

/-- `urllib.unquote_plus`. -/
def unquotePlus (s : List Char) : List Char := pctDecode (plusToSpace s)

def ordInsertLC (x : List Char) : List (List Char) → List (List Char)
  | [] => [x]
  | y :: ys => if lcLtB y x then y :: ordInsertLC x ys else x :: y :: ys

/-- Python's `sorted` on the encoded cookie entries (the round-trip statement
is membership-based, so any sort computes an acceptable cookie). -/
def sortLC : List (List Char) → List (List Char)
  | [] => []
  | x :: xs => ordInsertLC x (sortLC xs)

def splitOnCh (sep : Char) : List Char → List (List Char)
  | [] => [[]]
  | c :: cs =>
    let r := splitOnCh sep cs
    if c = sep then [] :: r
    else
      match r with
      | [] => [[c]]
      | g :: gs => (c :: g) :: gs

/-- Python `s.strip(ch)`. -/
def stripChar (ch : Char) (s : List Char) : List Char :=
  ((s.dropWhile (fun c => c = ch)).reverse.dropWhile (fun c => c = ch)).reverse

def joinPipe : List (List Char) → List Char
  | [] => []
  | [x] => x
  | x :: y :: xs => x ++ '|' :: joinPipe (y :: xs)

/-- `'%s?%s' % (login.path, urllib.quote_plus(login.name))`. -/
def encodeLogin (l : LoginRecS) : List Char :=
  l.path.toList ++ '?' :: quotePlus l.name.toList

/-- The Set-Cookie data `set_logins` produces. -/
structure LoginsCookie where
  value : List Char
  cookiePath : String
  expires : Nat
deriving DecidableEq, Repr

/-- `Handler.set_logins` (src/util.py lines 454-470); the expiry
`now_fn() + timedelta(days=365 * 2)` is `now + 730` with time in days. -/
def set_logins (now : Nat) (logins : List LoginRecS) : LoginsCookie :=
  { value := joinPipe (sortLC ((logins.map encodeLogin).dedup))
    cookiePath := "/"
    expires := now + 730 }

/-- `path, name = val.split('?')`; `site, _ = path.strip('/').split('/')`:
both unpacks require exactly two parts (a ValueError becomes `none`). -/
def parseLoginVal (val : List Char) : Option LoginRecS :=
  match splitOnCh '?' val with
  | [path, name] =>
    match splitOnCh '/' (stripChar '/' path) with
    | [site, _k] => some ⟨String.mk path, String.mk site, String.mk name⟩
    | _ => none
  | _ => none

def parseVals : List (List Char) → Option (List LoginRecS)
  | [] => some []
  | v :: vs =>
    match parseLoginVal v, parseVals vs with
    | some l, some ls => some (l :: ls)
    | _, _ => none

/-- `Handler.get_logins` (src/util.py lines 433-452): unquote the whole cookie
value, split on '|', deduplicate (`set(...)`), parse each entry. -/
def get_logins (cookieVal : List Char) : Option (List LoginRecS) :=
  if cookieVal = [] then some []
  else parseVals ((splitOnCh '|' (unquotePlus cookieVal)).dedup)

/-! ### quote/unquote lemmas -/

theorem pctDecode_cons_other {c : Char} (xs : List Char) (h : c ≠ '%') :
    pctDecode (c :: xs) = c :: pctDecode xs := by
  simp only [pctDecode]
  rw [if_neg h]

theorem pctDecode_pct (h l : Char) (rest : List Char) {hv lv : Nat}
    (hh : hexVal? h = some hv) (hl : hexVal? l = some lv) :
    pctDecode ('%' :: h :: l :: rest) = Char.ofNat (16 * hv + lv) :: pctDecode rest := by
  simp only [pctDecode, hh, hl, if_true]

theorem plusToSpace_append (a b : List Char) :
    plusToSpace (a ++ b) = plusToSpace a ++ plusToSpace b := by
  unfold plusToSpace
  exact List.map_append _ a b

theorem plusToSpace_clean {p : List Char} (hp : ∀ c ∈ p, c ≠ '+') :
    plusToSpace p = p := by
  unfold plusToSpace
  calc p.map (fun c => if c = '+' then ' ' else c)
      = p.map id := List.map_congr_left (fun c hc => by rw [if_neg (hp c hc)]; rfl)
    _ = p := List.map_id p

theorem pctDecode_clean_append {p : List Char} (hp : ∀ c ∈ p, c ≠ '%')
    (r : List Char) : pctDecode (p ++ r) = p ++ pctDecode r := by
  induction p with
  | nil => rfl
  | cons c cs ih =>
    rw [List.cons_append, pctDecode_cons_other _ (hp c (by simp)),
      ih (fun d hd => hp d (List.mem_cons_of_mem _ hd))]
    rfl

/-- A character that is neither '+' nor '%' passes through `unquote_plus`
prefix-wise. -/
theorem unquotePlus_clean_append {p : List Char}
    (hp : ∀ c ∈ p, c ≠ '+' ∧ c ≠ '%') (r : List Char) :
    unquotePlus (p ++ r) = p ++ unquotePlus r := by
  unfold unquotePlus
  rw [plusToSpace_append, plusToSpace_clean (fun c hc => (hp c hc).1),
    pctDecode_clean_append (fun c hc => (hp c hc).2)]

theorem hexVal_hexDigitUpper {n : Nat} (h : n < 16) :
    hexVal? (hexDigitUpper n) = some n := by
  interval_cases n <;> decide

theorem hexDigitUpper_props {m : Nat} (hm : m < 16) :
    hexDigitUpper m ≠ '|' ∧ hexDigitUpper m ≠ '?' ∧
    hexDigitUpper m ≠ '+' ∧ hexDigitUpper m ≠ '%' := by
  interval_cases m <;> exact ⟨by decide, by decide, by decide, by decide⟩

theorem isSafeCh_props {c : Char} (hs : isSafeCh c = true) :
    c ≠ '+' ∧ c ≠ '%' ∧ c ≠ '|' ∧ c ≠ '?' ∧ c ≠ ' ' := by
  refine ⟨?_, ?_, ?_, ?_, ?_⟩ <;>
  · intro h
    rw [h] at hs
    exact absurd hs (by decide)

/-- `unquote_plus` inverts `quote_plus` character-wise for bytes below 128,
also in front of any suffix. -/
theorem unquotePlus_quoteCh_append (c : Char) (hc : c.toNat < 128)
    (r : List Char) :
    unquotePlus (quotePlusCh c ++ r) = c :: unquotePlus r := by
  unfold quotePlusCh
  by_cases hs : isSafeCh c = true
  · rw [if_pos hs]
    exact unquotePlus_clean_append
      (by
        intro d hd
        simp only [List.mem_singleton] at hd
        subst hd
        exact ⟨(isSafeCh_props hs).1, (isSafeCh_props hs).2.1⟩) r
  · rw [if_neg hs]
    by_cases hsp : c = ' '
    · rw [if_pos hsp, List.singleton_append]
      unfold unquotePlus plusToSpace
      rw [List.map_cons, if_pos rfl]
      rw [pctDecode_cons_other _ (by decide)]
      rw [hsp]
    · rw [if_neg hsp]
      show unquotePlus ('%' :: hexDigitUpper (c.toNat / 16 % 16)
          :: hexDigitUpper (c.toNat % 16) :: r) = c :: unquotePlus r
      unfold unquotePlus
      have hd1 := hexDigitUpper_props (Nat.mod_lt (c.toNat / 16) (by omega)
        : c.toNat / 16 % 16 < 16)
      have hd2 := hexDigitUpper_props (Nat.mod_lt c.toNat (by omega)
        : c.toNat % 16 < 16)
      rw [show plusToSpace ('%' :: hexDigitUpper (c.toNat / 16 % 16)
            :: hexDigitUpper (c.toNat % 16) :: r)
          = '%' :: hexDigitUpper (c.toNat / 16 % 16)
            :: hexDigitUpper (c.toNat % 16) :: plusToSpace r from by
        unfold plusToSpace
        rw [List.map_cons, List.map_cons, List.map_cons,
          if_neg (by decide), if_neg hd1.2.2.1, if_neg hd2.2.2.1]]
      rw [pctDecode_pct _ _ _ (hexVal_hexDigitUpper (by omega))
        (hexVal_hexDigitUpper (by omega))]
      have hval : 16 * (c.toNat / 16 % 16) + c.toNat % 16 = c.toNat := by omega
      rw [hval, Char.ofNat_toNat]

/-- `unquote_plus` inverts `quote_plus` on ASCII strings, also in front of any
suffix. -/
theorem unquotePlus_quotePlus_append {n : List Char}
    (hn : ∀ c ∈ n, c.toNat < 128) (r : List Char) :
    unquotePlus (quotePlus n ++ r) = n ++ unquotePlus r := by
  induction n with
  | nil => rfl
  | cons c cs ih =>
    show unquotePlus ((quotePlusCh c ++ quotePlus cs) ++ r) = (c :: cs) ++ unquotePlus r
    rw [List.append_assoc, unquotePlus_quoteCh_append c (hn c (by simp)),
      ih (fun d hd => hn d (List.mem_cons_of_mem _ hd))]
    rfl

theorem quotePlusCh_no_delims (c : Char) :
    '|' ∉ quotePlusCh c ∧ '?' ∉ quotePlusCh c := by
  unfold quotePlusCh
  by_cases hs : isSafeCh c = true
  · rw [if_pos hs]
    constructor <;>
    · intro h
      simp only [List.mem_singleton] at h
      rw [← h] at hs
      exact absurd hs (by decide)
  · rw [if_neg hs]
    by_cases hsp : c = ' '
    · rw [if_pos hsp]
      exact ⟨by decide, by decide⟩
    · rw [if_neg hsp]
      have hd1 := hexDigitUpper_props (Nat.mod_lt (c.toNat / 16) (by omega)
        : c.toNat / 16 % 16 < 16)
      have hd2 := hexDigitUpper_props (Nat.mod_lt c.toNat (by omega)
        : c.toNat % 16 < 16)
      constructor
      · intro h
        simp only [List.mem_cons, List.not_mem_nil, or_false] at h
        rcases h with h | h | h
        · exact absurd h (by decide)
        · exact hd1.1 h.symm
        · exact hd2.1 h.symm
      · intro h
        simp only [List.mem_cons, List.not_mem_nil, or_false] at h
        rcases h with h | h | h
        · exact absurd h (by decide)
        · exact hd1.2.1 h.symm
        · exact hd2.2.1 h.symm

theorem quotePlus_no_delims (n : List Char) :
    '|' ∉ quotePlus n ∧ '?' ∉ quotePlus n := by
  induction n with
  | nil => exact ⟨by simp [quotePlus], by simp [quotePlus]⟩
  | cons c cs ih =>
    have hch := quotePlusCh_no_delims c
    show '|' ∉ quotePlusCh c ++ quotePlus cs ∧ '?' ∉ quotePlusCh c ++ quotePlus cs
    constructor
    · intro h
      rcases List.mem_append.1 h with h | h
      · exact hch.1 h
      · exact ih.1 h
    · intro h
      rcases List.mem_append.1 h with h | h
      · exact hch.2 h
      · exact ih.2 h


/-! ### Round-trip infrastructure -/

/-- A path segment acceptable to the cookie round trip: nonempty, free of the
split delimiters and of characters `quote_plus` would alter. -/
def cleanSeg (cs : List Char) : Prop :=
  cs ≠ [] ∧ ∀ c ∈ cs, c ≠ '/' ∧ c ≠ '?' ∧ c ≠ '|' ∧ c ≠ '+' ∧ c ≠ '%'

/-- A login the cookie round trip can recover: its path is exactly
`/site/key`, its `site` field matches the path, and its name is ASCII without
the cookie delimiters '|' and '?'. -/
def loginOk (l : LoginRecS) : Prop :=
  (∃ site k, l.path.toList = '/' :: site ++ '/' :: k ∧ cleanSeg site ∧
    cleanSeg k ∧ l.site.toList = site) ∧
  ∀ c ∈ l.name.toList, c.toNat < 128 ∧ c ≠ '|' ∧ c ≠ '?'

/-- The decoded form of one cookie entry: `path?name` with the name unquoted. -/
def decEntry (l : LoginRecS) : List Char :=
  l.path.toList ++ '?' :: l.name.toList

theorem splitOnCh_no_sep {sep : Char} {x : List Char}
    (hx : ∀ c ∈ x, c ≠ sep) : splitOnCh sep x = [x] := by
  induction x with
  | nil => rfl
  | cons c cs ih =>
    simp only [splitOnCh]
    rw [if_neg (hx c (by simp)), ih (fun d hd => hx d (List.mem_cons_of_mem _ hd))]

theorem splitOnCh_append_sep {sep : Char} {x : List Char}
    (hx : ∀ c ∈ x, c ≠ sep) (r : List Char) :
    splitOnCh sep (x ++ sep :: r) = x :: splitOnCh sep r := by
  induction x with
  | nil =>
    show splitOnCh sep (sep :: r) = [] :: splitOnCh sep r
    simp only [splitOnCh]
    rw [if_pos trivial]
  | cons c cs ih =>
    show splitOnCh sep (c :: (cs ++ sep :: r)) = (c :: cs) :: splitOnCh sep r
    simp only [splitOnCh]
    rw [if_neg (hx c (by simp)), ih (fun d hd => hx d (List.mem_cons_of_mem _ hd))]

theorem joinPipe_ne_nil {es : List (List Char)} (hne : es ≠ [])
    (h0 : ∀ e ∈ es, e ≠ []) : joinPipe es ≠ [] := by
  cases es with
  | nil => exact absurd rfl hne
  | cons e es =>
    cases es with
    | nil => exact h0 e (by simp)
    | cons f fs =>
      show e ++ '|' :: joinPipe (f :: fs) ≠ []
      simp

theorem splitOnCh_joinPipe {es : List (List Char)} (hne : es ≠ [])
    (h : ∀ e ∈ es, ∀ c ∈ e, c ≠ '|') :
    splitOnCh '|' (joinPipe es) = es := by
  induction es with
  | nil => exact absurd rfl hne
  | cons e es ih =>
    cases es with
    | nil =>
      show splitOnCh '|' e = [e]
      exact splitOnCh_no_sep (h e (by simp))
    | cons f fs =>
      show splitOnCh '|' (e ++ '|' :: joinPipe (f :: fs)) = e :: (f :: fs)
      rw [splitOnCh_append_sep (h e (by simp)),
        ih (by simp) (fun x hx => h x (List.mem_cons_of_mem _ hx))]

theorem stripChar_slash {site k : List Char} (hs : cleanSeg site)
    (hk : cleanSeg k) :
    stripChar '/' ('/' :: site ++ '/' :: k) = site ++ '/' :: k := by
  obtain ⟨hsne, hsch⟩ := hs
  obtain ⟨hkne, hkch⟩ := hk
  obtain ⟨s0, srest, rfl⟩ := List.exists_cons_of_ne_nil hsne
  have hdrop1 : List.dropWhile (fun c => c = '/')
      ('/' :: (s0 :: srest) ++ '/' :: k) = (s0 :: srest) ++ '/' :: k := by
    rw [show ('/' :: (s0 :: srest) ++ '/' :: k : List Char)
        = '/' :: ((s0 :: srest) ++ '/' :: k) from rfl]
    rw [List.dropWhile_cons, if_pos (by decide)]
    rw [show ((s0 :: srest) ++ '/' :: k : List Char)
        = s0 :: (srest ++ '/' :: k) from rfl]
    rw [List.dropWhile_cons, if_neg (by simp [(hsch s0 (by simp)).1])]
  have hkr : k.reverse ≠ [] := by simpa using hkne
  obtain ⟨k0, kr, hk0⟩ := List.exists_cons_of_ne_nil hkr
  have hk0mem : k0 ∈ k := by
    rw [← List.mem_reverse, hk0]
    exact List.mem_cons_self _ _
  have hrev : List.dropWhile (fun c => c = '/')
      ((s0 :: srest) ++ '/' :: k).reverse = ((s0 :: srest) ++ '/' :: k).reverse := by
    rw [show ((s0 :: srest) ++ '/' :: k).reverse
        = k0 :: (kr ++ '/' :: ((s0 :: srest) : List Char).reverse) from by
      rw [List.reverse_append,
        show (('/' :: k : List Char)).reverse = k.reverse ++ ['/'] from by simp,
        hk0]
      simp]
    rw [List.dropWhile_cons, if_neg (by simp [(hkch k0 hk0mem).1])]
  show (List.dropWhile (fun c => c = '/')
      ((List.dropWhile (fun c => c = '/')
        ('/' :: (s0 :: srest) ++ '/' :: k)).reverse)).reverse
      = (s0 :: srest) ++ '/' :: k
  rw [hdrop1, hrev, List.reverse_reverse]

theorem loginOk_path_chars {l : LoginRecS} (hok : loginOk l) :
    ∀ c ∈ l.path.toList, c ≠ '+' ∧ c ≠ '%' ∧ c ≠ '?' ∧ c ≠ '|' := by
  obtain ⟨⟨site, k, hpath, hs, hk, _⟩, _⟩ := hok
  intro c hc
  rw [hpath] at hc
  simp only [List.mem_cons, List.mem_append] at hc
  rcases hc with (rfl | hc) | rfl | hc
  · exact ⟨by decide, by decide, by decide, by decide⟩
  · obtain ⟨-, h2, h3, h4, h5⟩ := hs.2 c hc
    exact ⟨h4, h5, h2, h3⟩
  · exact ⟨by decide, by decide, by decide, by decide⟩
  · obtain ⟨-, h2, h3, h4, h5⟩ := hk.2 c hc
    exact ⟨h4, h5, h2, h3⟩

theorem decEntry_no_pipe {l : LoginRecS} (hok : loginOk l) :
    ∀ c ∈ decEntry l, c ≠ '|' := by
  intro c hc
  have hc' : c ∈ l.path.toList ++ '?' :: l.name.toList := hc
  rcases List.mem_append.1 hc' with hc2 | hc2
  · exact (loginOk_path_chars hok c hc2).2.2.2
  · rcases List.mem_cons.1 hc2 with rfl | hc3
    · decide
    · exact (hok.2 c hc3).2.1

theorem unquotePlus_pipe_cons (r : List Char) :
    unquotePlus ('|' :: r) = '|' :: unquotePlus r := by
  show pctDecode (plusToSpace ('|' :: r)) = '|' :: pctDecode (plusToSpace r)
  rw [show plusToSpace ('|' :: r) = '|' :: plusToSpace r from by
        unfold plusToSpace
        rw [List.map_cons, if_neg (by decide)],
      pctDecode_cons_other _ (by decide)]


/-- `unquote_plus` recovers the decoded entry from an encoded one, in front of
any suffix. -/
theorem unquotePlus_encodeLogin_append {l : LoginRecS} (hok : loginOk l)
    (r : List Char) :
    unquotePlus (encodeLogin l ++ r) = decEntry l ++ unquotePlus r := by
  have hclean : ∀ c ∈ l.path.toList ++ ['?'], c ≠ '+' ∧ c ≠ '%' := by
    intro c hc
    rcases List.mem_append.1 hc with hc | hc
    · have h := loginOk_path_chars hok c hc
      exact ⟨h.1, h.2.1⟩
    · simp only [List.mem_singleton] at hc
      subst hc
      exact ⟨by decide, by decide⟩
  have hascii : ∀ c ∈ l.name.toList, c.toNat < 128 :=
    fun c hc => (hok.2 c hc).1
  show unquotePlus ((l.path.toList ++ '?' :: quotePlus l.name.toList) ++ r)
      = (l.path.toList ++ '?' :: l.name.toList) ++ unquotePlus r
  rw [show l.path.toList ++ '?' :: quotePlus l.name.toList
      = (l.path.toList ++ ['?']) ++ quotePlus l.name.toList from by
        rw [List.append_assoc]
        rfl]
  rw [List.append_assoc, unquotePlus_clean_append hclean,
    unquotePlus_quotePlus_append hascii]
  rw [show (l.path.toList ++ ['?']) ++ (l.name.toList ++ unquotePlus r)
      = (l.path.toList ++ '?' :: l.name.toList) ++ unquotePlus r from by
    simp [List.append_assoc]]

theorem unquotePlus_encodeLogin {l : LoginRecS} (hok : loginOk l) :
    unquotePlus (encodeLogin l) = decEntry l := by
  have h := unquotePlus_encodeLogin_append hok []
  rw [List.append_nil, show unquotePlus [] = [] from rfl, List.append_nil] at h
  exact h

/-- Parsing a decoded cookie entry recovers the login record. -/
theorem parseLoginVal_decEntry {l : LoginRecS} (hok : loginOk l) :
    parseLoginVal (decEntry l) = some l := by
  have hpq : ∀ c ∈ l.path.toList, c ≠ '?' :=
    fun c hc => (loginOk_path_chars hok c hc).2.2.1
  obtain ⟨⟨site, k, hpath, hs, hk, hsite⟩, hname⟩ := hok
  obtain ⟨p, s, n⟩ := l
  have hpath' : p.toList = '/' :: site ++ '/' :: k := hpath
  have hsite' : s.toList = site := hsite
  have hpq' : ∀ c ∈ p.toList, c ≠ '?' := hpq
  have hnq : ∀ c ∈ n.toList, c ≠ '?' := fun c hc => (hname c hc).2.2
  have hinner : splitOnCh '/' (stripChar '/' p.toList) = [site, k] := by
    rw [hpath', stripChar_slash hs hk,
      splitOnCh_append_sep (fun c hc => (hs.2 c hc).1),
      splitOnCh_no_sep (fun c hc => (hk.2 c hc).1)]
  show parseLoginVal (p.toList ++ '?' :: n.toList) = some ⟨p, s, n⟩
  simp only [parseLoginVal, splitOnCh_append_sep hpq', splitOnCh_no_sep hnq,
    hinner]
  rw [← hsite']
  rfl

theorem parseVals_map {ls : List LoginRecS} (h : ∀ l ∈ ls, loginOk l) :
    parseVals (ls.map decEntry) = some ls := by
  induction ls with
  | nil => rfl
  | cons x xs ih =>
    show parseVals (decEntry x :: xs.map decEntry) = some (x :: xs)
    simp only [parseVals, parseLoginVal_decEntry (h x (by simp)),
      ih (fun y hy => h y (List.mem_cons_of_mem _ hy))]

theorem encodeLogin_inj {l1 l2 : LoginRecS} (h1 : loginOk l1) (h2 : loginOk l2)
    (he : encodeLogin l1 = encodeLogin l2) : l1 = l2 := by
  have hd : decEntry l1 = decEntry l2 := by
    rw [← unquotePlus_encodeLogin h1, ← unquotePlus_encodeLogin h2, he]
  have p1 := parseLoginVal_decEntry h1
  have p2 := parseLoginVal_decEntry h2
  rw [hd, p2] at p1
  exact (Option.some.inj p1).symm

theorem ordInsertLC_perm (x : List Char) (ys : List (List Char)) :
    List.Perm (ordInsertLC x ys) (x :: ys) := by
  induction ys with
  | nil => exact List.Perm.refl _
  | cons y ys ih =>
    unfold ordInsertLC
    by_cases h : lcLtB y x = true
    · rw [if_pos h]
      exact ((ih.cons y).trans (List.Perm.swap x y ys))
    · rw [if_neg h]

theorem sortLC_perm (xs : List (List Char)) : List.Perm (sortLC xs) xs := by
  induction xs with
  | nil => exact List.Perm.refl _
  | cons x xs ih => exact (ordInsertLC_perm x (sortLC xs)).trans (ih.cons x)

theorem exists_preimage_list {es : List (List Char)} {logins : List LoginRecS}
    (h : ∀ e ∈ es, ∃ l, l ∈ logins ∧ encodeLogin l = e) :
    ∃ ls : List LoginRecS, (∀ l ∈ ls, l ∈ logins) ∧ es = ls.map encodeLogin := by
  induction es with
  | nil => exact ⟨[], by simp, rfl⟩
  | cons e es ih =>
    obtain ⟨l, hl, he⟩ := h e (by simp)
    obtain ⟨ls, h1, h2⟩ := ih (fun x hx => h x (List.mem_cons_of_mem _ hx))
    refine ⟨l :: ls, ?_, by simp [he, ← h2]⟩
    intro y hy
    rcases List.mem_cons.1 hy with rfl | hy
    · exact hl
    · exact h1 y hy

/-- Unquoting the whole joined cookie value decodes it entry-wise. -/
theorem unquotePlus_joinPipe {ls : List LoginRecS} (h : ∀ l ∈ ls, loginOk l) :
    unquotePlus (joinPipe (ls.map encodeLogin))
      = joinPipe (ls.map decEntry) := by
  induction ls with
  | nil => rfl
  | cons x xs ih =>
    cases xs with
    | nil =>
      show unquotePlus (encodeLogin x) = decEntry x
      exact unquotePlus_encodeLogin (h x (by simp))
    | cons y ys =>
      show unquotePlus (encodeLogin x ++ '|' :: joinPipe ((y :: ys).map encodeLogin))
          = decEntry x ++ '|' :: joinPipe ((y :: ys).map decEntry)
      rw [unquotePlus_encodeLogin_append (h x (by simp)), unquotePlus_pipe_cons,
        ih (fun z hz => h z (List.mem_cons_of_mem _ hz))]


/-- C10: writing the logins cookie with `set_logins` and reading it back with
`get_logins` round-trips the SET of logins — for every list of recoverable
logins (path exactly `/site/key` with clean segments, `site` field matching
the path, ASCII name free of the delimiters '|' and '?'), the cookie has path
"/" and a 730-day (2-year) expiry, and reading it back yields a duplicate-free
list whose members are exactly the original logins.  The delimiter-safety part
of the claim is refuted separately: `get_logins` unquotes the WHOLE cookie
value before splitting, so a '|' inside a name breaks the round trip. -/
theorem logins_cookie_roundtrip (now : Nat) (logins : List LoginRecS)
    (hok : ∀ l ∈ logins, loginOk l) :
    (set_logins now logins).cookiePath = "/" ∧
    (set_logins now logins).expires = now + 730 ∧
    ∃ res : List LoginRecS,
      get_logins (set_logins now logins).value = some res ∧
      res.Nodup ∧ ∀ l, l ∈ res ↔ l ∈ logins := by
  refine ⟨rfl, rfl, ?_⟩
  by_cases hnil : logins = []
  · subst hnil
    exact ⟨[], rfl, List.nodup_nil, by simp⟩
  have hperm : List.Perm (sortLC ((logins.map encodeLogin).dedup))
      ((logins.map encodeLogin).dedup) := sortLC_perm _
  have hmem_es : ∀ e, e ∈ sortLC ((logins.map encodeLogin).dedup)
      ↔ e ∈ logins.map encodeLogin := by
    intro e
    rw [hperm.mem_iff, List.mem_dedup]
  have hpre : ∀ e ∈ sortLC ((logins.map encodeLogin).dedup),
      ∃ l, l ∈ logins ∧ encodeLogin l = e := by
    intro e he
    obtain ⟨l, hl, hle⟩ := List.mem_map.1 ((hmem_es e).1 he)
    exact ⟨l, hl, hle⟩
  obtain ⟨ls, hls_sub, hmap⟩ := exists_preimage_list hpre
  have hls_ok : ∀ l ∈ ls, loginOk l := fun l hl => hok l (hls_sub l hl)
  have hls_ne : ls ≠ [] := by
    intro h
    rw [h] at hmap
    obtain ⟨l0, ls0, rfl⟩ := List.exists_cons_of_ne_nil hnil
    have hin : encodeLogin l0 ∈ sortLC (((l0 :: ls0).map encodeLogin).dedup) :=
      (hmem_es _).2 (List.mem_map_of_mem _ (by simp))
    rw [hmap] at hin
    simp at hin
  have hVval : (set_logins now logins).value = joinPipe (ls.map encodeLogin) := by
    show joinPipe (sortLC ((logins.map encodeLogin).dedup)) = _
    rw [hmap]
  have hVne : (set_logins now logins).value ≠ [] := by
    rw [hVval]
    refine joinPipe_ne_nil (by simpa using hls_ne) ?_
    intro e he
    obtain ⟨l, _, rfl⟩ := List.mem_map.1 he
    show l.path.toList ++ '?' :: quotePlus l.name.toList ≠ []
    simp
  have hU : unquotePlus (joinPipe (ls.map encodeLogin))
      = joinPipe (ls.map decEntry) := unquotePlus_joinPipe hls_ok
  have hsplit : splitOnCh '|' (joinPipe (ls.map decEntry)) = ls.map decEntry := by
    refine splitOnCh_joinPipe (by simpa using hls_ne) ?_
    intro e he
    obtain ⟨l, hl, rfl⟩ := List.mem_map.1 he
    exact decEntry_no_pipe (hls_ok l hl)
  have hes_nodup : (ls.map encodeLogin).Nodup := by
    rw [← hmap]
    exact (hperm.nodup_iff).2 (List.nodup_dedup _)
  have hls_nodup : ls.Nodup := hes_nodup.of_map
  have hdec_nodup : (ls.map decEntry).Nodup := by
    refine hls_nodup.map_on ?_
    intro x hx y hy hxy
    have px := parseLoginVal_decEntry (hls_ok x hx)
    rw [hxy, parseLoginVal_decEntry (hls_ok y hy)] at px
    exact (Option.some.inj px).symm
  refine ⟨ls, ?_, hls_nodup, ?_⟩
  · show get_logins (set_logins now logins).value = some ls
    unfold get_logins
    rw [if_neg hVne, hVval, hU, hsplit, List.dedup_eq_self.2 hdec_nodup,
      parseVals_map hls_ok]
  · intro l
    constructor
    · exact fun hl => hls_sub l hl
    · intro hl
      have hmem : encodeLogin l ∈ ls.map encodeLogin := by
        rw [← hmap]
        exact (hmem_es _).2 (List.mem_map_of_mem _ hl)
      obtain ⟨l', hl', he⟩ := List.mem_map.1 hmem
      exact (encodeLogin_inj (hls_ok l' hl') (hok l hl) he) ▸ hl'

/-- C10 witness: the login `{path: "/twitter/alice", site: "twitter",
name: "a b"}` (the space exercises the '+' encoding) round-trips, with cookie
path "/" and expiry `now + 730` days for `now = 5`. -/
theorem logins_cookie_roundtrip_witness :
    (set_logins 5 [⟨"/twitter/alice", "twitter", "a b"⟩]).cookiePath = "/" ∧
    (set_logins 5 [⟨"/twitter/alice", "twitter", "a b"⟩]).expires = 5 + 730 ∧
    ∃ res : List LoginRecS,
      get_logins (set_logins 5 [⟨"/twitter/alice", "twitter", "a b"⟩]).value
        = some res ∧
      res.Nodup ∧
      ∀ l, l ∈ res ↔ l ∈ [(⟨"/twitter/alice", "twitter", "a b"⟩ : LoginRecS)] :=
  logins_cookie_roundtrip 5 _ (by
    intro l hl
    rw [List.mem_singleton] at hl
    subst hl
    exact ⟨⟨"twitter".toList, "alice".toList, by decide,
      ⟨by decide, by decide⟩, ⟨by decide, by decide⟩, by decide⟩, by decide⟩)

/-- C10 counterexample: the encoding is NOT delimiter-safe.  For the single
login `{path: "/twitter/x", site: "twitter", name: "a|b"}` the cookie stores
the name percent-encoded ("a%7Cb"), but `get_logins` unquotes the WHOLE cookie
value before splitting on '|', so the restored '|' splits the entry in two and
the second fragment "b" has no '?': the unpacking `path, name = val.split('?')`
fails (a ValueError in Python, `none` here) instead of recovering the login. -/
theorem logins_cookie_roundtrip_counterexample :
    get_logins (set_logins 0 [⟨"/twitter/x", "twitter", "a|b"⟩]).value
      = none := by
  decide


end Bridgy
